import Mathlib

/-!
Verification of the explicit-list allocator in `src/el_malloc.c`.

The arena is modelled as the address-ordered sequence of blocks that
physically partition the heap: each block carries its header `size`, the
redundant `fsize` stored in its footer, and its header `state`.  Addresses
are byte offsets from the start of the heap and are derived from the block
sequence (block `i` starts at the sum of the spans of blocks `0..i-1`),
which reflects the gap-free, overlap-free partition of the heap into
header/payload/footer spans.  The two intrusive doubly-linked lists are
modelled as lists of block addresses (front first) together with the
`length` and `bytes` counters that the C code maintains.

Reads through invalid pointers (NULL dereferences, reads of addresses that
are not live block headers) are modelled by returning `none` from the whole
operation: the C program has no defined result state there.
-/

set_option autoImplicit false

namespace ElMalloc

/-- Modelled from the spec: the block header and footer sizes come from
`el_malloc.h`, which is not among the provided sources.  The header holds a
`size_t` size, a one-byte state tag (padded), and the two list links, for 32
bytes; the footer holds a single `size_t`, for 8 bytes; the spec fixes the
per-block overhead (header plus footer) at 40 bytes. -/
def sizeof_blockhead : Nat := 32

/-- Modelled from the spec: byte size of the footer (a single stored size). -/
def sizeof_blockfoot : Nat := 8

/-- Per-block overhead: the bytes taken by one header and one footer. -/
def EL_BLOCK_OVERHEAD : Nat := sizeof_blockhead + sizeof_blockfoot

/-- Header state tag of a block.  Real blocks are `available` or `used`;
`uninit` stands for the unwritten state field of a header freshly carved out
by `el_split_block`, which the C code leaves untouched until `el_malloc`
assigns it. -/
inductive BlockState where
  | available
  | used
  | uninit
deriving DecidableEq

/-- One physical block of the arena: header `size` (payload byte count),
the size recorded in its footer (`fsize`), and its header state. -/
structure Block where
  size : Nat
  fsize : Nat
  state : BlockState
deriving DecidableEq

/-- Total bytes spanned by a block: header + payload + footer. -/
def blockSpan (b : Block) : Nat := EL_BLOCK_OVERHEAD + b.size

/-- Byte address (offset from heap start) of the header of block `i` in the
address-ordered arena. -/
def blockAddr : List Block → Nat → Nat
  | _, 0 => 0
  | [], _ + 1 => 0
  | b :: rest, i + 1 => blockSpan b + blockAddr rest i

/-- Resolve a byte address to the index of the block whose header lives
there, if any. -/
def idxOfAddr : List Block → Nat → Option Nat
  | [], _ => none
  | b :: rest, a =>
    if a = 0 then some 0
    else if a < blockSpan b then none
    else (idxOfAddr rest (a - blockSpan b)).map (fun j => j + 1)

/-- The block whose header lives at byte address `a`, if any. -/
def blockAt (arena : List Block) (a : Nat) : Option Block :=
  (idxOfAddr arena a).bind arena.get?

/-- Overwrite the header state of the block whose header lives at `a`. -/
def setStateAt (arena : List Block) (a : Nat) (st : BlockState) : List Block :=
  match idxOfAddr arena a with
  | none => arena
  | some i =>
    match arena.get? i with
    | none => arena
    | some b => arena.set i { b with state := st }

/-- An intrusive block list: member block addresses (front first) plus the
`length` and `bytes` counters maintained by the C code. -/
structure Blocklist where
  blocks : List Nat
  length : Nat
  bytes : Nat
deriving DecidableEq

/-- `el_init_blocklist`: the empty list (sentinels wired to each other,
counters zeroed). -/
def el_init_blocklist : Blocklist :=
  { blocks := [], length := 0, bytes := 0 }

/-- `el_add_block_front`: link a block (of header size `sz`, which the C
code reads from the block) in right after the begin sentinel and account for
its size and overhead. -/
def el_add_block_front (l : Blocklist) (a : Nat) (sz : Nat) : Blocklist :=
  { blocks := a :: l.blocks
    length := l.length + 1
    bytes := l.bytes + (EL_BLOCK_OVERHEAD + sz) }

/-- `el_remove_block`: unlink a block (of header size `sz`) and subtract its
size and overhead from the counters.  The C counters are `size_t`; in every
state in which the C code performs a removal the block is a member of the
list, so the subtractions do not underflow and `Nat` subtraction coincides
with the machine arithmetic. -/
def el_remove_block (l : Blocklist) (a : Nat) (sz : Nat) : Blocklist :=
  { blocks := l.blocks.erase a
    length := l.length - 1
    bytes := l.bytes - (EL_BLOCK_OVERHEAD + sz) }

/-- The global allocator state: arena byte count, the physical block
sequence, and the available and used lists. -/
structure ElCtl where
  heap_bytes : Nat
  arena : List Block
  avail : Blocklist
  used : Blocklist
deriving DecidableEq

/-- `el_init`: fail when the heap cannot hold one block's overhead,
otherwise carve the whole heap into a single maximal available block and put
it on the available list. -/
def el_init (heapBytes : Nat) : Option ElCtl :=
  if heapBytes < EL_BLOCK_OVERHEAD then none
  else
    let size := heapBytes - EL_BLOCK_OVERHEAD
    some { heap_bytes := heapBytes
           arena := [{ size := size, fsize := size, state := BlockState.available }]
           avail := el_add_block_front el_init_blocklist 0 size
           used := el_init_blocklist }

/-- `el_block_above`: pure address arithmetic from the block's own recorded
size, plus the bound check against the end of the heap.  Returns the address
one past this block's footer, or `none` at the top of the heap. -/
def el_block_above (s : ElCtl) (a : Nat) : Option Nat :=
  match blockAt s.arena a with
  | none => none
  | some b =>
    let higher := a + b.size + EL_BLOCK_OVERHEAD
    if s.heap_bytes ≤ higher then none else some higher

/-- Index of the block whose span ends exactly at byte address `a`: the
owner of the footer that sits immediately below `a`. -/
def footOwnerIdx : List Block → Nat → Option Nat
  | [], _ => none
  | b :: rest, a =>
    if a = blockSpan b then some 0
    else if a < blockSpan b then none
    else (footOwnerIdx rest (a - blockSpan b)).map (fun j => j + 1)

/-- `el_block_below`: read the footer that sits immediately before this
block's header and step back over the size it records (the neighbour's
`fsize`) plus one header.  Returns `none` when that footer would fall below
the start of the heap.  The footer immediately before address `a` belongs to
the block whose span ends at `a`; if no block ends there the bytes read are
not a footer and the C code would produce a garbage pointer, which the model
reports as `none`. -/
def el_block_below (s : ElCtl) (a : Nat) : Option Nat :=
  if a < sizeof_blockfoot then none
  else
    match footOwnerIdx s.arena a with
    | none => none
    | some j =>
      match s.arena.get? j with
      | none => none
      | some b => some (a - sizeof_blockfoot - (b.fsize + sizeof_blockhead))

/-- `el_split_block`: when the block at `a` has size at least
`new_size + EL_BLOCK_OVERHEAD`, shrink it to `new_size` (header and footer),
carve a fresh block immediately above holding the remainder with a matching
header and footer, and return the new block's address; otherwise change
nothing and return an inner `none`.  The fresh header's state field is never
written by the C code, which the model records as `uninit`.  An outer `none`
models dereferencing an address that is not a live header. -/
def el_split_block (s : ElCtl) (a : Nat) (new_size : Nat) :
    Option (ElCtl × Option Nat) :=
  match idxOfAddr s.arena a with
  | none => none
  | some i =>
    match s.arena.get? i with
    | none => none
    | some b =>
      if b.size < new_size + EL_BLOCK_OVERHEAD then some (s, none)
      else
        let size := b.size
        let new_head := a + new_size + sizeof_blockfoot + sizeof_blockhead
        let lowerBlock : Block := { size := new_size, fsize := new_size, state := b.state }
        let upperBlock : Block :=
          { size := size - new_size - EL_BLOCK_OVERHEAD
            fsize := size - new_size - EL_BLOCK_OVERHEAD
            state := BlockState.uninit }
        some ({ s with
                  arena := s.arena.take i ++ [lowerBlock, upperBlock] ++ s.arena.drop (i + 1) },
              some new_head)

/-- One step of `el_find_first_avail`'s scan: walk the member addresses from
the front, bounded by the list's `length` counter, returning the first block
of size at least `size + EL_BLOCK_OVERHEAD`.  In every reachable state the
counter equals the number of members, so the fuel never runs short and every
member address resolves to a live block. -/
def el_find_loop (arena : List Block) : List Nat → Nat → Nat → Option Nat
  | _, 0, _ => none
  | [], _ + 1, _ => none
  | a :: rest, fuel + 1, size =>
    match blockAt arena a with
    | none => none
    | some b =>
      if size + EL_BLOCK_OVERHEAD ≤ b.size then some a
      else el_find_loop arena rest fuel size

/-- `el_find_first_avail`: linear scan of the available list from its front
for the first block of size at least `size + EL_BLOCK_OVERHEAD`. -/
def el_find_first_avail (s : ElCtl) (size : Nat) : Option Nat :=
  el_find_loop s.arena s.avail.blocks s.avail.length size

/-- `el_malloc`: first-fit search, unlink the found block, split it at
`nbytes`, move the lower part to the used list as USED, push the remainder
onto the front of the available list as AVAILABLE, and return the payload
address just past the header.  When no block fits the result is an inner
`none` and the state is untouched.  When the split returns NULL the C code
goes on to call `el_add_block_front(avail, NULL)` and to write
`second->state`, a NULL dereference, modelled as an outer `none`. -/
def el_malloc (s : ElCtl) (nbytes : Nat) : Option (ElCtl × Option Nat) :=
  match el_find_first_avail s nbytes with
  | none => some (s, none)
  | some fa =>
    match blockAt s.arena fa with
    | none => none
    | some fb =>
      let s1 : ElCtl := { s with avail := el_remove_block s.avail fa fb.size }
      match el_split_block s1 fa nbytes with
      | none => none
      | some (s2, second) =>
        match blockAt s2.arena fa with
        | none => none
        | some fb2 =>
          let s3 : ElCtl :=
            { s2 with used := el_add_block_front s2.used fa fb2.size
                      arena := setStateAt s2.arena fa BlockState.used }
          match second with
          | none => none
          | some sa =>
            match blockAt s3.arena sa with
            | none => none
            | some sb =>
              some ({ s3 with
                        avail := el_add_block_front s3.avail sa sb.size
                        arena := setStateAt s3.arena sa BlockState.available },
                    some (fa + sizeof_blockhead))

/-- `el_merge_block_with_above`: the C code first calls
`el_block_above(lower)`, which reads `lower->size`, and only afterwards
tests `lower` against NULL — so a NULL `lower` is a NULL dereference, the
outer `none`.  For a live `lower`: if it is not AVAILABLE, or there is no
block above, or the block above is not AVAILABLE, nothing changes.
Otherwise both blocks leave the available list, the lower block absorbs the
upper block's span (`size_lower + size_upper + EL_BLOCK_OVERHEAD`, written
to the lower header and to the upper block's footer), and the combined block
is pushed onto the front of the available list. -/
def el_merge_block_with_above (s : ElCtl) (lower : Option Nat) : Option ElCtl :=
  match lower with
  | none => none
  | some la =>
    match idxOfAddr s.arena la with
    | none => none
    | some i =>
      match s.arena.get? i with
      | none => none
      | some lb =>
        let above := el_block_above s la
        if lb.state ≠ BlockState.available then some s
        else
          match above with
          | none => some s
          | some aa =>
            match idxOfAddr s.arena aa with
            | none => none
            | some j =>
              match s.arena.get? j with
              | none => none
              | some ab =>
                if ab.state ≠ BlockState.available then some s
                else
                  let total := lb.size + ab.size
                  let avail1 := el_remove_block s.avail aa ab.size
                  let avail2 := el_remove_block avail1 la lb.size
                  let merged : Block :=
                    { size := total + EL_BLOCK_OVERHEAD
                      fsize := total + EL_BLOCK_OVERHEAD
                      state := lb.state }
                  some { s with
                           arena := s.arena.take i ++ [merged] ++ s.arena.drop (j + 1)
                           avail := el_add_block_front avail2 la merged.size }

/-- `el_free`: recover the header at `ptr - sizeof(el_blockhead_t)`; return
silently if it is already AVAILABLE; otherwise note the block below, move
the block from the used list to the front of the available list as
AVAILABLE, merge it with the block above, and then merge the block below
with the block above it.  A pointer whose recovered header is not a live
block header is a garbage read, modelled as `none`. -/
def el_free (s : ElCtl) (p : Nat) : Option ElCtl :=
  let a := p - sizeof_blockhead
  match blockAt s.arena a with
  | none => none
  | some hb =>
    if hb.state = BlockState.available then some s
    else
      let before := el_block_below s a
      let s1 : ElCtl :=
        { s with used := el_remove_block s.used a hb.size
                 arena := setStateAt s.arena a BlockState.available }
      let s2 : ElCtl := { s1 with avail := el_add_block_front s1.avail a hb.size }
      match el_merge_block_with_above s2 (some a) with
      | none => none
      | some s3 =>
        match before with
        | none => some s3
        | some ba => el_merge_block_with_above s3 (some ba)

/-! ### Spans and addresses -/

/-- Total byte count spanned by a sequence of blocks. -/
def spanSum (arena : List Block) : Nat := (arena.map blockSpan).sum

lemma blockSpan_pos (b : Block) : 0 < blockSpan b := by
  simp [blockSpan, EL_BLOCK_OVERHEAD, sizeof_blockhead, sizeof_blockfoot]

lemma spanSum_cons (b : Block) (l : List Block) :
    spanSum (b :: l) = blockSpan b + spanSum l := by
  simp [spanSum]

lemma spanSum_append (l₁ l₂ : List Block) :
    spanSum (l₁ ++ l₂) = spanSum l₁ + spanSum l₂ := by
  simp [spanSum]

lemma blockAddr_zero (arena : List Block) : blockAddr arena 0 = 0 := by
  cases arena <;> rfl

lemma blockAddr_nil (i : Nat) : blockAddr [] i = 0 := by
  cases i <;> rfl

lemma blockAddr_cons_succ (b : Block) (rest : List Block) (i : Nat) :
    blockAddr (b :: rest) (i + 1) = blockSpan b + blockAddr rest i := rfl

lemma spanSum_take (arena : List Block) (i : Nat) :
    spanSum (arena.take i) = blockAddr arena i := by
  induction arena generalizing i with
  | nil => cases i <;> simp [spanSum, blockAddr_nil]
  | cons b rest ih =>
    cases i with
    | zero => simp [spanSum, blockAddr_zero]
    | succ j =>
      simp only [List.take_succ_cons, spanSum_cons, blockAddr_cons_succ, ih j]

lemma blockAddr_le_spanSum (arena : List Block) (i : Nat) :
    blockAddr arena i ≤ spanSum arena := by
  induction arena generalizing i with
  | nil => simp [blockAddr_nil, spanSum]
  | cons b rest ih =>
    cases i with
    | zero => simp [blockAddr_zero]
    | succ j =>
      have := ih j
      simp only [blockAddr_cons_succ, spanSum_cons]
      omega

lemma blockAddr_get?_succ {arena : List Block} {i : Nat} {b : Block}
    (h : arena.get? i = some b) :
    blockAddr arena (i + 1) = blockAddr arena i + blockSpan b := by
  induction arena generalizing i with
  | nil => simp at h
  | cons c rest ih =>
    cases i with
    | zero =>
      simp only [List.get?] at h
      cases h
      simp [blockAddr_cons_succ, blockAddr_zero]
    | succ j =>
      simp only [List.get?] at h
      have := ih h
      simp only [blockAddr_cons_succ]
      omega

lemma blockAddr_add_span_le {arena : List Block} {i : Nat} {b : Block}
    (h : arena.get? i = some b) :
    blockAddr arena i + blockSpan b ≤ spanSum arena := by
  have h1 := blockAddr_get?_succ h
  have h2 := blockAddr_le_spanSum arena (i + 1)
  omega

lemma blockAddr_lt_spanSum {arena : List Block} {i : Nat} (h : i < arena.length) :
    blockAddr arena i < spanSum arena := by
  obtain ⟨b, hb⟩ : ∃ b, arena.get? i = some b := by
    rw [List.get?_eq_get h]
    exact ⟨_, rfl⟩
  have := blockAddr_add_span_le hb
  have := blockSpan_pos b
  omega

lemma blockAddr_lt_blockAddr {arena : List Block} {i j : Nat}
    (hij : i < j) (hj : j ≤ arena.length) :
    blockAddr arena i < blockAddr arena j := by
  induction arena generalizing i j with
  | nil => simp at hj; omega
  | cons b rest ih =>
    cases j with
    | zero => omega
    | succ j' =>
      cases i with
      | zero =>
        have := blockAddr_le_spanSum rest j'
        have := blockSpan_pos b
        simp only [blockAddr_zero, blockAddr_cons_succ]
        omega
      | succ i' =>
        have := ih (by omega : i' < j') (by simpa using hj)
        simp only [blockAddr_cons_succ]
        omega

/-! ### Resolving addresses to blocks -/

lemma idxOfAddr_some {arena : List Block} {a i : Nat}
    (h : idxOfAddr arena a = some i) :
    i < arena.length ∧ blockAddr arena i = a := by
  induction arena generalizing a i with
  | nil => simp [idxOfAddr] at h
  | cons b rest ih =>
    by_cases h0 : a = 0
    · subst h0
      simp [idxOfAddr] at h
      subst h
      simp [blockAddr_zero]
    · by_cases hlt : a < blockSpan b
      · simp [idxOfAddr, h0, hlt] at h
      · simp only [idxOfAddr, if_neg h0, if_neg hlt, Option.map_eq_some'] at h
        obtain ⟨j, hj, rfl⟩ := h
        obtain ⟨hj1, hj2⟩ := ih hj
        refine ⟨by simpa using hj1, ?_⟩
        simp only [blockAddr_cons_succ, hj2]
        omega

lemma idxOfAddr_blockAddr {arena : List Block} {i : Nat} (h : i < arena.length) :
    idxOfAddr arena (blockAddr arena i) = some i := by
  induction arena generalizing i with
  | nil => simp at h
  | cons b rest ih =>
    cases i with
    | zero => simp [idxOfAddr, blockAddr_zero]
    | succ j =>
      have hj : j < rest.length := by simpa using h
      have hpos := blockSpan_pos b
      have hle := blockAddr_le_spanSum rest j
      have hne : ¬ blockSpan b + blockAddr rest j = 0 := by omega
      have hge : ¬ blockSpan b + blockAddr rest j < blockSpan b := by omega
      simp only [blockAddr_cons_succ, idxOfAddr, if_neg hne, if_neg hge,
        Nat.add_sub_cancel_left, ih hj, Option.map_some']

lemma blockAt_blockAddr {arena : List Block} {i : Nat} (h : i < arena.length) :
    blockAt arena (blockAddr arena i) = arena.get? i := by
  simp [blockAt, idxOfAddr_blockAddr h]

lemma blockAt_some_elim {arena : List Block} {a : Nat} {b : Block}
    (h : blockAt arena a = some b) :
    ∃ i, idxOfAddr arena a = some i ∧ i < arena.length ∧
      blockAddr arena i = a ∧ arena.get? i = some b := by
  simp only [blockAt, Option.bind_eq_some] at h
  obtain ⟨i, hi, hget⟩ := h
  obtain ⟨h1, h2⟩ := idxOfAddr_some hi
  exact ⟨i, hi, h1, h2, hget⟩

lemma idxOfAddr_append_lt {l₁ l₂ : List Block} {a : Nat} (h : a < spanSum l₁) :
    idxOfAddr (l₁ ++ l₂) a = idxOfAddr l₁ a := by
  induction l₁ generalizing a with
  | nil => simp [spanSum] at h
  | cons b rest ih =>
    by_cases h0 : a = 0
    · simp [idxOfAddr, h0]
    · by_cases hlt : a < blockSpan b
      · simp [idxOfAddr, h0, hlt]
      · have hrec : a - blockSpan b < spanSum rest := by
          have := spanSum_cons b rest
          omega
        simp [idxOfAddr, h0, hlt, ih hrec]

lemma idxOfAddr_append_ge {l₁ l₂ : List Block} {a : Nat} (h : spanSum l₁ ≤ a) :
    idxOfAddr (l₁ ++ l₂) a =
      (idxOfAddr l₂ (a - spanSum l₁)).map (fun j => j + l₁.length) := by
  induction l₁ generalizing a with
  | nil =>
    simp only [List.nil_append, List.length_nil]
    have : a - spanSum [] = a := by simp [spanSum]
    rw [this]
    cases idxOfAddr l₂ a <;> simp
  | cons b rest ih =>
    have hcons := spanSum_cons b rest
    have hpos := blockSpan_pos b
    have h0 : ¬ a = 0 := by omega
    have hge : ¬ a < blockSpan b := by omega
    have hrest : spanSum rest ≤ a - blockSpan b := by omega
    have heq : a - blockSpan b - spanSum rest = a - spanSum (b :: rest) := by omega
    simp only [List.cons_append, idxOfAddr, if_neg h0, if_neg hge, List.append_eq]
    rw [ih hrest, heq, Option.map_map]
    cases idxOfAddr l₂ (a - spanSum (b :: rest)) with
    | none => rfl
    | some j =>
      simp [Function.comp, Nat.add_assoc]

lemma blockAt_append_lt {l₁ l₂ : List Block} {a : Nat} (h : a < spanSum l₁) :
    blockAt (l₁ ++ l₂) a = blockAt l₁ a := by
  simp only [blockAt, idxOfAddr_append_lt h]
  cases hidx : idxOfAddr l₁ a with
  | none => rfl
  | some i =>
    have hi := (idxOfAddr_some hidx).1
    simp only [Option.some_bind]
    exact List.get?_append hi

lemma blockAt_append_ge {l₁ l₂ : List Block} {a : Nat} (h : spanSum l₁ ≤ a) :
    blockAt (l₁ ++ l₂) a = blockAt l₂ (a - spanSum l₁) := by
  simp only [blockAt, idxOfAddr_append_ge h]
  cases hidx : idxOfAddr l₂ (a - spanSum l₁) with
  | none => rfl
  | some j =>
    simp only [Option.map_some', Option.some_bind]
    rw [List.get?_append_right (by omega)]
    congr 1
    omega

lemma blockAt_append_mid (pre mid post : List Block) (a : Nat) :
    blockAt (pre ++ mid ++ post) a =
      if a < spanSum pre then blockAt pre a
      else if a - spanSum pre < spanSum mid then blockAt mid (a - spanSum pre)
      else blockAt post (a - spanSum pre - spanSum mid) := by
  rw [List.append_assoc]
  by_cases h1 : a < spanSum pre
  · rw [if_pos h1, blockAt_append_lt h1]
  · rw [if_neg h1, blockAt_append_ge (by omega)]
    by_cases h2 : a - spanSum pre < spanSum mid
    · rw [if_pos h2, blockAt_append_lt h2]
    · rw [if_neg h2, blockAt_append_ge (by omega)]

lemma blockAt_single (b : Block) (a : Nat) :
    blockAt [b] a = if a = 0 then some b else none := by
  by_cases h0 : a = 0
  · simp [blockAt, idxOfAddr, h0]
  · by_cases hlt : a < blockSpan b <;> simp [blockAt, idxOfAddr, h0, hlt]

lemma blockAt_pair (b c : Block) (a : Nat) :
    blockAt [b, c] a =
      if a = 0 then some b else if a = blockSpan b then some c else none := by
  by_cases h0 : a = 0
  · simp [blockAt, idxOfAddr, h0]
  · by_cases hlt : a < blockSpan b
    · have : ¬ a = blockSpan b := by omega
      simp [blockAt, idxOfAddr, h0, hlt, this]
    · by_cases heq : a - blockSpan b = 0
      · have hab : a = blockSpan b := by omega
        have hsp := blockSpan_pos b
        have hspne : ¬ blockSpan b = 0 := by omega
        simp [blockAt, idxOfAddr, h0, hlt, heq, hab, hspne]
      · have hne : ¬ a = blockSpan b := by omega
        by_cases hlt2 : a - blockSpan b < blockSpan c <;>
          simp [blockAt, idxOfAddr, h0, hlt, heq, hne, hlt2]

/-! ### Sums of size-plus-overhead over list members -/

/-- Header size of the block at address `a`, or `0` when none lives there. -/
def sizeAtD (arena : List Block) (a : Nat) : Nat :=
  match blockAt arena a with
  | some b => b.size
  | none => 0

/-- The value tracked by a blocklist's `bytes` counter: the sum over the
member addresses of the block's size plus the per-block overhead. -/
def listSum (arena : List Block) (l : List Nat) : Nat :=
  (l.map (fun a => EL_BLOCK_OVERHEAD + sizeAtD arena a)).sum

lemma listSum_nil (arena : List Block) : listSum arena [] = 0 := rfl

lemma listSum_cons (arena : List Block) (a : Nat) (l : List Nat) :
    listSum arena (a :: l) =
      (EL_BLOCK_OVERHEAD + sizeAtD arena a) + listSum arena l := by
  simp [listSum]

lemma listSum_append (arena : List Block) (l₁ l₂ : List Nat) :
    listSum arena (l₁ ++ l₂) = listSum arena l₁ + listSum arena l₂ := by
  simp [listSum]

lemma listSum_congr {arena arena' : List Block} {l : List Nat}
    (h : ∀ a ∈ l, sizeAtD arena' a = sizeAtD arena a) :
    listSum arena' l = listSum arena l := by
  induction l with
  | nil => rfl
  | cons x xs ih =>
    rw [listSum_cons, listSum_cons, h x (List.mem_cons_self x xs),
      ih (fun a ha => h a (List.mem_cons_of_mem x ha))]

lemma listSum_erase {arena : List Block} {l : List Nat} {a : Nat} (h : a ∈ l) :
    listSum arena l =
      (EL_BLOCK_OVERHEAD + sizeAtD arena a) + listSum arena (l.erase a) := by
  induction l with
  | nil => cases h
  | cons x xs ih =>
    by_cases hx : x = a
    · subst hx
      rw [List.erase_cons_head, listSum_cons]
    · have hmem : a ∈ xs := by
        cases h with
        | head => exact absurd rfl hx
        | tail _ h => exact h
      rw [List.erase_cons_tail (by simpa using hx), listSum_cons, listSum_cons,
        ih hmem]
      omega

lemma listSum_perm {arena : List Block} {l₁ l₂ : List Nat} (h : l₁.Perm l₂) :
    listSum arena l₁ = listSum arena l₂ :=
  List.Perm.sum_eq (List.Perm.map _ h)

/-! ### Block states seen through addresses -/

/-- There is a live block whose header is at `a` and whose state is `st`. -/
def HasState (arena : List Block) (a : Nat) (st : BlockState) : Prop :=
  ∃ b, blockAt arena a = some b ∧ b.state = st

/-- There is a live block whose header is at `a`. -/
def IsBlockAddr (arena : List Block) (a : Nat) : Prop :=
  ∃ b, blockAt arena a = some b

/-! ### Enumerating all block addresses -/

/-- Header addresses of a block sequence laid out starting at `base`. -/
def addrsFrom (base : Nat) : List Block → List Nat
  | [] => []
  | b :: rest => base :: addrsFrom (base + blockSpan b) rest

lemma mem_addrsFrom {base : Nat} {arena : List Block} {a : Nat} :
    a ∈ addrsFrom base arena ↔
      ∃ i, i < arena.length ∧ base + blockAddr arena i = a := by
  induction arena generalizing base with
  | nil => simp [addrsFrom]
  | cons b rest ih =>
    simp only [addrsFrom, List.mem_cons, ih]
    constructor
    · rintro (rfl | ⟨j, hj, rfl⟩)
      · exact ⟨0, by simp [blockAddr_zero]⟩
      · exact ⟨j + 1, by simpa using hj, by simp [blockAddr_cons_succ]; omega⟩
    · rintro ⟨i, hi, rfl⟩
      cases i with
      | zero => left; simp [blockAddr_zero]
      | succ j =>
        right
        exact ⟨j, by simpa using hi, by simp [blockAddr_cons_succ]; omega⟩

lemma le_of_mem_addrsFrom {base : Nat} {arena : List Block} {a : Nat}
    (h : a ∈ addrsFrom base arena) : base ≤ a := by
  rw [mem_addrsFrom] at h
  obtain ⟨i, _, rfl⟩ := h
  omega

lemma addrsFrom_nodup (base : Nat) (arena : List Block) :
    (addrsFrom base arena).Nodup := by
  induction arena generalizing base with
  | nil => simp [addrsFrom]
  | cons b rest ih =>
    refine List.nodup_cons.2 ⟨fun hmem => ?_, ih _⟩
    have := le_of_mem_addrsFrom hmem
    have := blockSpan_pos b
    omega

lemma listSum_addrsFrom (l₁ l₂ : List Block) :
    listSum (l₁ ++ l₂) (addrsFrom (spanSum l₁) l₂) = spanSum l₂ := by
  induction l₂ generalizing l₁ with
  | nil => simp [addrsFrom, listSum, spanSum]
  | cons b rest ih =>
    have hhead : sizeAtD (l₁ ++ b :: rest) (spanSum l₁) = b.size := by
      rw [sizeAtD, blockAt_append_ge (Nat.le_refl _), Nat.sub_self]
      simp [blockAt, idxOfAddr]
    have htail := ih (l₁ ++ [b])
    have hsp : spanSum (l₁ ++ [b]) = spanSum l₁ + blockSpan b := by
      simp [spanSum]
    rw [hsp, List.append_assoc, List.singleton_append] at htail
    rw [addrsFrom, listSum_cons, hhead, htail, spanSum_cons, blockSpan]

lemma mem_addrsFrom_zero {arena : List Block} {a : Nat} :
    a ∈ addrsFrom 0 arena ↔ IsBlockAddr arena a := by
  rw [mem_addrsFrom]
  constructor
  · rintro ⟨i, hi, rfl⟩
    refine ⟨arena.get ⟨i, hi⟩, ?_⟩
    simp only [Nat.zero_add]
    rw [blockAt_blockAddr hi, List.get?_eq_get hi]
  · rintro ⟨b, hb⟩
    obtain ⟨i, _, hi2, hi3, _⟩ := blockAt_some_elim hb
    exact ⟨i, hi2, by omega⟩

lemma listSum_addrsFrom_zero (arena : List Block) :
    listSum arena (addrsFrom 0 arena) = spanSum arena := by
  have := listSum_addrsFrom [] arena
  simpa [spanSum] using this

/-! ### The allocator invariant -/

/-- Two physically adjacent blocks are never both AVAILABLE. -/
def NoAdjAvail (x y : Block) : Prop :=
  ¬(x.state = BlockState.available ∧ y.state = BlockState.available)

/-- The arena is fully coalesced: no two physically adjacent AVAILABLE
blocks remain. -/
def Coalesced (arena : List Block) : Prop := List.Chain' NoAdjAvail arena

/-- The bookkeeping invariant of the allocator, minus coalescing: the
blocks exactly cover the heap; every footer agrees with its header; no
header is left with an unwritten state; the available and used lists hold
exactly the addresses of the AVAILABLE and USED blocks, each once; and each
list's `length` and `bytes` counters are the member count and the sum of
member sizes plus overhead.  (Coalescing is kept separate because it is
transiently broken inside `el_free`.) -/
structure InvCore (s : ElCtl) : Prop where
  cover : spanSum s.arena = s.heap_bytes
  foots : ∀ b ∈ s.arena, b.fsize = b.size
  states : ∀ b ∈ s.arena, b.state ≠ BlockState.uninit
  avail_mem : ∀ a, a ∈ s.avail.blocks ↔ HasState s.arena a BlockState.available
  used_mem : ∀ a, a ∈ s.used.blocks ↔ HasState s.arena a BlockState.used
  avail_nodup : s.avail.blocks.Nodup
  used_nodup : s.used.blocks.Nodup
  avail_len : s.avail.length = s.avail.blocks.length
  used_len : s.used.length = s.used.blocks.length
  avail_bytes : s.avail.bytes = listSum s.arena s.avail.blocks
  used_bytes : s.used.bytes = listSum s.arena s.used.blocks

/-- The full invariant holding between public operations. -/
structure Inv (s : ElCtl) extends InvCore s : Prop where
  coal : Coalesced s.arena

/-- Conservation: since each list's `bytes` counter already includes the
per-block overhead of each member, the two counters alone sum to the whole
arena byte count. -/
lemma invcore_conservation {s : ElCtl} (h : InvCore s) :
    s.avail.bytes + s.used.bytes = s.heap_bytes := by
  have hdisj : s.avail.blocks.Disjoint s.used.blocks := by
    intro a ha hu
    obtain ⟨b, hb, hbs⟩ := (h.avail_mem a).1 ha
    obtain ⟨c, hc, hcs⟩ := (h.used_mem a).1 hu
    rw [hb] at hc
    cases hc
    rw [hbs] at hcs
    cases hcs
  have hnodup : (s.avail.blocks ++ s.used.blocks).Nodup :=
    List.nodup_append.2 ⟨h.avail_nodup, h.used_nodup, hdisj⟩
  have hmem : ∀ a, a ∈ s.avail.blocks ++ s.used.blocks ↔ a ∈ addrsFrom 0 s.arena := by
    intro a
    rw [List.mem_append, mem_addrsFrom_zero, h.avail_mem, h.used_mem]
    constructor
    · rintro (⟨b, hb, _⟩ | ⟨b, hb, _⟩) <;> exact ⟨b, hb⟩
    · rintro ⟨b, hb⟩
      obtain ⟨i, _, _, _, hget⟩ := blockAt_some_elim hb
      have hbmem : b ∈ s.arena := List.get?_mem hget
      have hnu := h.states b hbmem
      cases hst : b.state with
      | available => exact Or.inl ⟨b, hb, hst⟩
      | used => exact Or.inr ⟨b, hb, hst⟩
      | uninit => exact absurd hst hnu
  have hperm : (s.avail.blocks ++ s.used.blocks).Perm (addrsFrom 0 s.arena) :=
    (List.perm_ext_iff_of_nodup hnodup (addrsFrom_nodup 0 s.arena)).2 hmem
  have hsum := @listSum_perm s.arena _ _ hperm
  rw [listSum_append, listSum_addrsFrom_zero] at hsum
  rw [h.avail_bytes, h.used_bytes, hsum, h.cover]

/-- Allocator states reachable from a successful `el_init` by any sequence
of `el_malloc` and `el_free` calls that complete without undefined
behaviour. -/
inductive Reachable : ElCtl → Prop where
  | init : ∀ hb s, el_init hb = some s → Reachable s
  | malloc : ∀ s n s' r, Reachable s → el_malloc s n = some (s', r) → Reachable s'
  | free : ∀ s p s', Reachable s → el_free s p = some s' → Reachable s'

/-! ### Glue lemmas for arena surgery -/

lemma arena_decomp {arena : List Block} {i : Nat} {b : Block}
    (h : arena.get? i = some b) :
    arena = arena.take i ++ b :: arena.drop (i + 1) := by
  have hlen : i < arena.length := by
    by_contra hcon
    rw [List.get?_eq_none.2 (by omega)] at h
    cases h
  conv_lhs => rw [← List.take_append_drop i arena]
  rw [List.drop_eq_get_cons hlen]
  have h2 := List.get?_eq_get hlen
  rw [h2] at h
  cases h
  rfl

lemma blockAddr_append_len (pre rest : List Block) :
    blockAddr (pre ++ rest) pre.length = spanSum pre := by
  rw [← spanSum_take]
  congr 1
  exact List.take_left pre rest

lemma get?_append_len (pre rest : List Block) (k : Nat) :
    (pre ++ rest).get? (pre.length + k) = rest.get? k := by
  rw [List.get?_append_right (Nat.le_add_right _ _)]
  congr 1
  omega

lemma idxOfAddr_append_len (pre : List Block) {rest : List Block}
    (hne : rest ≠ []) :
    idxOfAddr (pre ++ rest) (spanSum pre) = some pre.length := by
  rw [idxOfAddr_append_ge (Nat.le_refl _), Nat.sub_self]
  cases rest with
  | nil => exact absurd rfl hne
  | cons b r => simp [idxOfAddr]

lemma blockAt_append_len (pre : List Block) {rest : List Block} {b : Block}
    (hhead : rest.get? 0 = some b) :
    blockAt (pre ++ rest) (spanSum pre) = some b := by
  have hne : rest ≠ [] := by
    intro hcon
    rw [hcon] at hhead
    cases hhead
  rw [blockAt, idxOfAddr_append_len pre hne]
  simpa using (get?_append_len pre rest 0).trans hhead

lemma setStateAt_of_idx {arena : List Block} {a i : Nat} {b : Block}
    (hidx : idxOfAddr arena a = some i) (hget : arena.get? i = some b)
    (st : BlockState) :
    setStateAt arena a st = arena.set i { b with state := st } := by
  simp only [setStateAt, hidx, hget]

lemma set_append_len (pre : List Block) {rest : List Block} (b' : Block) :
    (pre ++ rest).set pre.length b' = pre ++ rest.set 0 b' := by
  rw [List.set_append]
  simp

lemma set_append_len' {pre rest : List Block} {i : Nat} (h : pre.length = i)
    (b' : Block) :
    (pre ++ rest).set i b' = pre ++ rest.set 0 b' := by
  rw [← h]
  exact set_append_len pre b'

/-! ### The first-fit scan -/

lemma el_find_loop_some {arena : List Block} {l : List Nat}
    {fuel size a : Nat}
    (h : el_find_loop arena l fuel size = some a) :
    a ∈ l ∧ ∃ b, blockAt arena a = some b ∧ size + EL_BLOCK_OVERHEAD ≤ b.size := by
  induction fuel generalizing l with
  | zero => rw [el_find_loop] at h; cases h
  | succ f ih =>
    cases l with
    | nil => rw [el_find_loop] at h; cases h
    | cons x xs =>
      rw [el_find_loop] at h
      cases hb : blockAt arena x with
      | none => simp [hb] at h
      | some b =>
        simp only [hb] at h
        by_cases hfit : size + EL_BLOCK_OVERHEAD ≤ b.size
        · rw [if_pos hfit] at h
          cases h
          exact ⟨List.mem_cons_self _ _, b, hb, hfit⟩
        · rw [if_neg hfit] at h
          obtain ⟨hmem, hrest⟩ := ih h
          exact ⟨List.mem_cons_of_mem _ hmem, hrest⟩

/-- The scan bounded by the `length` counter agrees with a straight
`find?` over the member addresses whenever the counter is the member count
and every member address resolves to a live block. -/
lemma el_find_loop_eq_find? {arena : List Block} {l : List Nat} {size : Nat}
    (hval : ∀ a ∈ l, ∃ b, blockAt arena a = some b) :
    el_find_loop arena l l.length size =
      l.find? (fun a => decide (size + EL_BLOCK_OVERHEAD ≤ sizeAtD arena a)) := by
  induction l with
  | nil => rfl
  | cons x xs ih =>
    obtain ⟨b, hb⟩ := hval x (List.mem_cons_self x xs)
    have hsz : sizeAtD arena x = b.size := by rw [sizeAtD, hb]
    rw [List.length_cons, el_find_loop]
    simp only [hb]
    by_cases hfit : size + EL_BLOCK_OVERHEAD ≤ b.size
    · rw [if_pos hfit, List.find?_cons_of_pos _ (by simp [hsz, hfit])]
    · rw [if_neg hfit, List.find?_cons_of_neg _ (by simp [hsz, hfit]),
        ih (fun a ha => hval a (List.mem_cons_of_mem x ha))]

/-! ### The shape of a successful allocation -/

/-- When the first-fit scan returns the block `b` at address `fa` (index
`i`), `el_malloc` splits it and produces exactly this state. -/
lemma el_malloc_shape {s : ElCtl} {nbytes fa i : Nat} {b : Block}
    (hfind : el_find_first_avail s nbytes = some fa)
    (hidx : idxOfAddr s.arena fa = some i)
    (hget : s.arena.get? i = some b)
    (hfit : nbytes + EL_BLOCK_OVERHEAD ≤ b.size) :
    el_malloc s nbytes = some
      ({ heap_bytes := s.heap_bytes
         arena := s.arena.take i ++
           { size := nbytes, fsize := nbytes, state := BlockState.used } ::
           { size := b.size - nbytes - EL_BLOCK_OVERHEAD
             fsize := b.size - nbytes - EL_BLOCK_OVERHEAD
             state := BlockState.available } :: s.arena.drop (i + 1)
         avail := { blocks := (fa + nbytes + EL_BLOCK_OVERHEAD) :: s.avail.blocks.erase fa
                    length := s.avail.length - 1 + 1
                    bytes := s.avail.bytes - (EL_BLOCK_OVERHEAD + b.size)
                      + (EL_BLOCK_OVERHEAD + (b.size - nbytes - EL_BLOCK_OVERHEAD)) }
         used := { blocks := fa :: s.used.blocks
                   length := s.used.length + 1
                   bytes := s.used.bytes + (EL_BLOCK_OVERHEAD + nbytes) } },
       some (fa + sizeof_blockhead)) := by
  have hlen : i < s.arena.length := (idxOfAddr_some hidx).1
  have haddr : blockAddr s.arena i = fa := (idxOfAddr_some hidx).2
  have hBat : blockAt s.arena fa = some b := by
    rw [blockAt, hidx, Option.some_bind, hget]
  have hprelen : (s.arena.take i).length = i := by
    rw [List.length_take]
    omega
  have hspanpre : spanSum (s.arena.take i) = fa := by
    rw [spanSum_take, haddr]
  have hnlt : ¬ b.size < nbytes + EL_BLOCK_OVERHEAD := by omega
  have hmid : blockAt (s.arena.take i ++
        { size := nbytes, fsize := nbytes, state := b.state } ::
        { size := b.size - nbytes - EL_BLOCK_OVERHEAD
          fsize := b.size - nbytes - EL_BLOCK_OVERHEAD
          state := BlockState.uninit } :: s.arena.drop (i + 1)) fa
      = some { size := nbytes, fsize := nbytes, state := b.state } := by
    rw [← hspanpre]
    exact blockAt_append_len _ rfl
  have hidx2 : idxOfAddr (s.arena.take i ++
        { size := nbytes, fsize := nbytes, state := b.state } ::
        { size := b.size - nbytes - EL_BLOCK_OVERHEAD
          fsize := b.size - nbytes - EL_BLOCK_OVERHEAD
          state := BlockState.uninit } :: s.arena.drop (i + 1)) fa = some i := by
    rw [← hspanpre, idxOfAddr_append_len _ (by simp), hprelen]
  have hget2 : (s.arena.take i ++
        { size := nbytes, fsize := nbytes, state := b.state } ::
        { size := b.size - nbytes - EL_BLOCK_OVERHEAD
          fsize := b.size - nbytes - EL_BLOCK_OVERHEAD
          state := BlockState.uninit } :: s.arena.drop (i + 1)).get? i
      = some { size := nbytes, fsize := nbytes, state := b.state } := by
    have h0 := get?_append_len (s.arena.take i)
      ({ size := nbytes, fsize := nbytes, state := b.state } ::
        { size := b.size - nbytes - EL_BLOCK_OVERHEAD
          fsize := b.size - nbytes - EL_BLOCK_OVERHEAD
          state := BlockState.uninit } :: s.arena.drop (i + 1)) 0
    rw [hprelen] at h0
    simpa using h0
  have hset1 : setStateAt (s.arena.take i ++
        { size := nbytes, fsize := nbytes, state := b.state } ::
        { size := b.size - nbytes - EL_BLOCK_OVERHEAD
          fsize := b.size - nbytes - EL_BLOCK_OVERHEAD
          state := BlockState.uninit } :: s.arena.drop (i + 1)) fa BlockState.used
      = s.arena.take i ++
          { size := nbytes, fsize := nbytes, state := BlockState.used } ::
          { size := b.size - nbytes - EL_BLOCK_OVERHEAD
            fsize := b.size - nbytes - EL_BLOCK_OVERHEAD
            state := BlockState.uninit } :: s.arena.drop (i + 1) := by
    rw [setStateAt_of_idx hidx2 hget2, set_append_len' hprelen]
    rfl
  have hsa : spanSum (s.arena.take i ++
        [{ size := nbytes, fsize := nbytes, state := BlockState.used }])
      = fa + nbytes + sizeof_blockfoot + sizeof_blockhead := by
    rw [spanSum_append, hspanpre]
    simp [spanSum, blockSpan, EL_BLOCK_OVERHEAD]
    omega
  have hassoc : s.arena.take i ++
        { size := nbytes, fsize := nbytes, state := BlockState.used } ::
        { size := b.size - nbytes - EL_BLOCK_OVERHEAD
          fsize := b.size - nbytes - EL_BLOCK_OVERHEAD
          state := BlockState.uninit } :: s.arena.drop (i + 1)
      = (s.arena.take i ++
          [{ size := nbytes, fsize := nbytes, state := BlockState.used }]) ++
          ({ size := b.size - nbytes - EL_BLOCK_OVERHEAD
             fsize := b.size - nbytes - EL_BLOCK_OVERHEAD
             state := BlockState.uninit } :: s.arena.drop (i + 1)) := by
    simp
  have hmid2 : blockAt (s.arena.take i ++
        { size := nbytes, fsize := nbytes, state := BlockState.used } ::
        { size := b.size - nbytes - EL_BLOCK_OVERHEAD
          fsize := b.size - nbytes - EL_BLOCK_OVERHEAD
          state := BlockState.uninit } :: s.arena.drop (i + 1))
        (fa + nbytes + sizeof_blockfoot + sizeof_blockhead)
      = some { size := b.size - nbytes - EL_BLOCK_OVERHEAD
               fsize := b.size - nbytes - EL_BLOCK_OVERHEAD
               state := BlockState.uninit } := by
    rw [hassoc, ← hsa]
    exact blockAt_append_len _ rfl
  have hidx3 : idxOfAddr (s.arena.take i ++
        { size := nbytes, fsize := nbytes, state := BlockState.used } ::
        { size := b.size - nbytes - EL_BLOCK_OVERHEAD
          fsize := b.size - nbytes - EL_BLOCK_OVERHEAD
          state := BlockState.uninit } :: s.arena.drop (i + 1))
        (fa + nbytes + sizeof_blockfoot + sizeof_blockhead) = some (i + 1) := by
    rw [hassoc, ← hsa, idxOfAddr_append_len _ (by simp)]
    simp [hprelen]
  have hget3 : (s.arena.take i ++
        { size := nbytes, fsize := nbytes, state := BlockState.used } ::
        { size := b.size - nbytes - EL_BLOCK_OVERHEAD
          fsize := b.size - nbytes - EL_BLOCK_OVERHEAD
          state := BlockState.uninit } :: s.arena.drop (i + 1)).get? (i + 1)
      = some { size := b.size - nbytes - EL_BLOCK_OVERHEAD
               fsize := b.size - nbytes - EL_BLOCK_OVERHEAD
               state := BlockState.uninit } := by
    have h0 := get?_append_len (s.arena.take i)
      ({ size := nbytes, fsize := nbytes, state := BlockState.used } ::
        { size := b.size - nbytes - EL_BLOCK_OVERHEAD
          fsize := b.size - nbytes - EL_BLOCK_OVERHEAD
          state := BlockState.uninit } :: s.arena.drop (i + 1)) 1
    rw [hprelen] at h0
    simpa using h0
  have hset2 : setStateAt (s.arena.take i ++
        { size := nbytes, fsize := nbytes, state := BlockState.used } ::
        { size := b.size - nbytes - EL_BLOCK_OVERHEAD
          fsize := b.size - nbytes - EL_BLOCK_OVERHEAD
          state := BlockState.uninit } :: s.arena.drop (i + 1))
        (fa + nbytes + sizeof_blockfoot + sizeof_blockhead) BlockState.available
      = s.arena.take i ++
          { size := nbytes, fsize := nbytes, state := BlockState.used } ::
          { size := b.size - nbytes - EL_BLOCK_OVERHEAD
            fsize := b.size - nbytes - EL_BLOCK_OVERHEAD
            state := BlockState.available } :: s.arena.drop (i + 1) := by
    rw [setStateAt_of_idx hidx3 hget3, hassoc]
    have hlen2 : (s.arena.take i ++
        ([{ size := nbytes, fsize := nbytes, state := BlockState.used }] :
          List Block)).length
        = i + 1 := by
      simp [hprelen]
    rw [set_append_len' hlen2]
    simp
  rw [el_malloc, hfind]
  simp only [hBat, el_split_block]
  simp only [hidx, hget, if_neg hnlt]
  simp only [List.append_assoc, List.cons_append, List.nil_append]
  simp only [hmid, hset1, hmid2, hset2]
  rfl

/-! ### The shape of merging with the block above -/

lemma blockAddr_length (arena : List Block) :
    blockAddr arena arena.length = spanSum arena := by
  rw [← spanSum_take, List.take_length]

/-- `el_block_above` on the block at index `i` yields the next block's
address, or `none` exactly at the top block (given that the blocks cover
the heap). -/
lemma el_block_above_of_get {s : ElCtl} {la i : Nat} {lb : Block}
    (hidx : idxOfAddr s.arena la = some i)
    (hget : s.arena.get? i = some lb)
    (hcover : spanSum s.arena = s.heap_bytes) :
    el_block_above s la =
      if i + 1 < s.arena.length then some (blockAddr s.arena (i + 1)) else none := by
  have hlen : i < s.arena.length := (idxOfAddr_some hidx).1
  have haddr : blockAddr s.arena i = la := (idxOfAddr_some hidx).2
  have hBat : blockAt s.arena la = some lb := by
    rw [blockAt, hidx, Option.some_bind, hget]
  have hsucc : blockAddr s.arena (i + 1) = la + blockSpan lb := by
    rw [blockAddr_get?_succ hget, haddr]
  have hhigher : la + lb.size + EL_BLOCK_OVERHEAD = blockAddr s.arena (i + 1) := by
    rw [hsucc, blockSpan]
    omega
  rw [el_block_above]
  simp only [hBat]
  rw [hhigher]
  by_cases hi : i + 1 < s.arena.length
  · have := blockAddr_lt_spanSum hi
    rw [if_neg (by omega), if_pos hi]
  · have hi1 : i + 1 = s.arena.length := by omega
    rw [hi1, blockAddr_length, if_pos (by omega), if_neg (by omega)]

lemma el_merge_noop_not_avail {s : ElCtl} {la i : Nat} {lb : Block}
    (hidx : idxOfAddr s.arena la = some i)
    (hget : s.arena.get? i = some lb)
    (hstate : lb.state ≠ BlockState.available) :
    el_merge_block_with_above s (some la) = some s := by
  rw [el_merge_block_with_above]
  simp only [hidx, hget]
  rw [if_pos hstate]

lemma el_merge_noop_top {s : ElCtl} {la i : Nat} {lb : Block}
    (hidx : idxOfAddr s.arena la = some i)
    (hget : s.arena.get? i = some lb)
    (hcover : spanSum s.arena = s.heap_bytes)
    (htop : i + 1 = s.arena.length) :
    el_merge_block_with_above s (some la) = some s := by
  have habove : el_block_above s la = none := by
    rw [el_block_above_of_get hidx hget hcover, if_neg (by omega)]
  rw [el_merge_block_with_above]
  simp only [hidx, hget, habove]
  by_cases hst : lb.state ≠ BlockState.available
  · rw [if_pos hst]
  · rw [if_neg hst]

lemma el_merge_noop_above_not_avail {s : ElCtl} {la i : Nat} {lb ab : Block}
    (hidx : idxOfAddr s.arena la = some i)
    (hget : s.arena.get? i = some lb)
    (hcover : spanSum s.arena = s.heap_bytes)
    (hnext : s.arena.get? (i + 1) = some ab)
    (habst : ab.state ≠ BlockState.available) :
    el_merge_block_with_above s (some la) = some s := by
  have hlen1 : i + 1 < s.arena.length := by
    by_contra hcon
    rw [List.get?_eq_none.2 (by omega)] at hnext
    cases hnext
  have habove : el_block_above s la = some (blockAddr s.arena (i + 1)) := by
    rw [el_block_above_of_get hidx hget hcover, if_pos hlen1]
  have hidx1 : idxOfAddr s.arena (blockAddr s.arena (i + 1)) = some (i + 1) :=
    idxOfAddr_blockAddr hlen1
  rw [el_merge_block_with_above]
  simp only [hidx, hget, habove, hidx1, hnext]
  by_cases hst : lb.state ≠ BlockState.available
  · rw [if_pos hst]
  · rw [if_neg hst, if_pos habst]

/-- Successful merge: the two AVAILABLE neighbours at indices `i` and
`i + 1` are replaced by one AVAILABLE block absorbing both payloads plus
one overhead; both leave the available list and the lower address is pushed
back onto its front. -/
lemma el_merge_shape {s : ElCtl} {la i : Nat} {lb ab : Block}
    (hidx : idxOfAddr s.arena la = some i)
    (hget : s.arena.get? i = some lb)
    (hcover : spanSum s.arena = s.heap_bytes)
    (hlb : lb.state = BlockState.available)
    (hnext : s.arena.get? (i + 1) = some ab)
    (hab : ab.state = BlockState.available) :
    el_merge_block_with_above s (some la) = some
      { heap_bytes := s.heap_bytes
        arena := s.arena.take i ++
          { size := lb.size + ab.size + EL_BLOCK_OVERHEAD
            fsize := lb.size + ab.size + EL_BLOCK_OVERHEAD
            state := BlockState.available } :: s.arena.drop (i + 2)
        avail := { blocks :=
                     la :: ((s.avail.blocks.erase (blockAddr s.arena (i + 1))).erase la)
                   length := s.avail.length - 1 - 1 + 1
                   bytes := s.avail.bytes - (EL_BLOCK_OVERHEAD + ab.size)
                     - (EL_BLOCK_OVERHEAD + lb.size)
                     + (EL_BLOCK_OVERHEAD + (lb.size + ab.size + EL_BLOCK_OVERHEAD)) }
        used := s.used } := by
  have hlen1 : i + 1 < s.arena.length := by
    by_contra hcon
    rw [List.get?_eq_none.2 (by omega)] at hnext
    cases hnext
  have habove : el_block_above s la = some (blockAddr s.arena (i + 1)) := by
    rw [el_block_above_of_get hidx hget hcover, if_pos hlen1]
  have hidx1 : idxOfAddr s.arena (blockAddr s.arena (i + 1)) = some (i + 1) :=
    idxOfAddr_blockAddr hlen1
  rw [el_merge_block_with_above]
  simp only [hidx, hget, habove, hidx1, hnext]
  rw [if_neg (by simp [hlb]), if_neg (by simp [hab])]
  rw [hlb]
  simp [el_add_block_front, el_remove_block]

/-! ### Pointwise lookup characterizations of the two arena surgeries -/

lemma drop_eq_cons_of_get? {arena : List Block} {k : Nat} {b : Block}
    (h : arena.get? k = some b) :
    arena.drop k = b :: arena.drop (k + 1) := by
  have hlen : k < arena.length := by
    by_contra hcon
    rw [List.get?_eq_none.2 (by omega)] at h
    cases h
  rw [List.drop_eq_get_cons hlen]
  have h2 := List.get?_eq_get hlen
  rw [h2] at h
  cases h
  rfl

lemma spanSum_single (b : Block) : spanSum [b] = blockSpan b := by
  simp [spanSum]

lemma spanSum_pair (b c : Block) : spanSum [b, c] = blockSpan b + blockSpan c := by
  simp [spanSum]

/-- Pointwise effect on lookup of replacing the block at index `i` by a
lower part of size `n` and an upper remainder, as `el_split_block` does. -/
lemma blockAt_split_char {arena : List Block} {i : Nat} {b : Block}
    (hget : arena.get? i = some b) {n : Nat}
    (hfit : n + EL_BLOCK_OVERHEAD ≤ b.size) (st1 st2 : BlockState) (x : Nat) :
    blockAt (arena.take i ++
        { size := n, fsize := n, state := st1 } ::
        { size := b.size - n - EL_BLOCK_OVERHEAD
          fsize := b.size - n - EL_BLOCK_OVERHEAD
          state := st2 } :: arena.drop (i + 1)) x =
      if x = blockAddr arena i then some { size := n, fsize := n, state := st1 }
      else if x = blockAddr arena i + n + EL_BLOCK_OVERHEAD then
        some { size := b.size - n - EL_BLOCK_OVERHEAD
               fsize := b.size - n - EL_BLOCK_OVERHEAD
               state := st2 }
      else blockAt arena x := by
  have hpre : spanSum (arena.take i) = blockAddr arena i := spanSum_take arena i
  have hdecomp := arena_decomp hget
  have horig : blockAt arena x =
      if x < blockAddr arena i then blockAt (arena.take i) x
      else if x - blockAddr arena i < blockSpan b then blockAt [b] (x - blockAddr arena i)
      else blockAt (arena.drop (i + 1)) (x - blockAddr arena i - blockSpan b) := by
    conv_lhs => rw [hdecomp]
    rw [show arena.take i ++ b :: arena.drop (i + 1)
        = arena.take i ++ [b] ++ arena.drop (i + 1) by simp]
    rw [blockAt_append_mid, hpre, spanSum_single]
  have hnew : blockAt (arena.take i ++
        { size := n, fsize := n, state := st1 } ::
        { size := b.size - n - EL_BLOCK_OVERHEAD
          fsize := b.size - n - EL_BLOCK_OVERHEAD
          state := st2 } :: arena.drop (i + 1)) x =
      if x < blockAddr arena i then blockAt (arena.take i) x
      else if x - blockAddr arena i <
          blockSpan { size := n, fsize := n, state := st1 } +
          blockSpan { size := b.size - n - EL_BLOCK_OVERHEAD
                      fsize := b.size - n - EL_BLOCK_OVERHEAD
                      state := st2 } then
        blockAt [{ size := n, fsize := n, state := st1 },
                 { size := b.size - n - EL_BLOCK_OVERHEAD
                   fsize := b.size - n - EL_BLOCK_OVERHEAD
                   state := st2 }] (x - blockAddr arena i)
      else blockAt (arena.drop (i + 1)) (x - blockAddr arena i -
        (blockSpan { size := n, fsize := n, state := st1 } +
         blockSpan { size := b.size - n - EL_BLOCK_OVERHEAD
                     fsize := b.size - n - EL_BLOCK_OVERHEAD
                     state := st2 })) := by
    rw [show arena.take i ++
        { size := n, fsize := n, state := st1 } ::
        { size := b.size - n - EL_BLOCK_OVERHEAD
          fsize := b.size - n - EL_BLOCK_OVERHEAD
          state := st2 } :: arena.drop (i + 1)
        = arena.take i ++
          [{ size := n, fsize := n, state := st1 },
           { size := b.size - n - EL_BLOCK_OVERHEAD
             fsize := b.size - n - EL_BLOCK_OVERHEAD
             state := st2 }] ++ arena.drop (i + 1) by simp]
    rw [blockAt_append_mid, hpre, spanSum_pair]
  have hspan1 : blockSpan { size := n, fsize := n, state := st1 }
      = EL_BLOCK_OVERHEAD + n := rfl
  have hspan2 : blockSpan { size := b.size - n - EL_BLOCK_OVERHEAD
                            fsize := b.size - n - EL_BLOCK_OVERHEAD
                            state := st2 }
      = EL_BLOCK_OVERHEAD + (b.size - n - EL_BLOCK_OVERHEAD) := rfl
  have hspanb : blockSpan b = EL_BLOCK_OVERHEAD + b.size := rfl
  have hov40 : EL_BLOCK_OVERHEAD = 40 := rfl
  rw [hnew, horig]
  rw [hspan1, hspan2, hspanb]
  set A := blockAddr arena i with hA
  by_cases h1 : x < A
  · rw [if_pos h1, if_pos h1, if_neg (by omega), if_neg (by omega)]
  · rw [if_neg h1, if_neg h1]
    by_cases h2 : x = A
    · subst h2
      rw [if_pos rfl, if_pos (by omega)]
      rw [blockAt_pair]
      rw [if_pos (by omega)]
    · rw [if_neg h2]
      by_cases h3 : x = A + n + EL_BLOCK_OVERHEAD
      · rw [if_pos h3, if_pos (by omega), blockAt_pair,
          if_neg (by omega), if_pos (by rw [hspan1]; omega)]
      · rw [if_neg h3]
        by_cases h4 : x - A < EL_BLOCK_OVERHEAD + n + (EL_BLOCK_OVERHEAD + (b.size - n - EL_BLOCK_OVERHEAD))
        · rw [if_pos h4, if_pos (by omega), blockAt_pair, blockAt_single,
            if_neg (by omega), if_neg (by rw [hspan1]; omega), if_neg (by omega)]
        · rw [if_neg h4, if_neg (by omega)]
          congr 1
          omega

/-- Pointwise effect on lookup of merging the blocks at indices `i` and
`i + 1` into one, as `el_merge_block_with_above` does: the upper block's
header address no longer resolves to a block. -/
lemma blockAt_merge_char {arena : List Block} {i : Nat} {lb ab : Block}
    (hget : arena.get? i = some lb) (hnext : arena.get? (i + 1) = some ab)
    (st : BlockState) (x : Nat) :
    blockAt (arena.take i ++
        { size := lb.size + ab.size + EL_BLOCK_OVERHEAD
          fsize := lb.size + ab.size + EL_BLOCK_OVERHEAD
          state := st } :: arena.drop (i + 2)) x =
      if x = blockAddr arena i then
        some { size := lb.size + ab.size + EL_BLOCK_OVERHEAD
               fsize := lb.size + ab.size + EL_BLOCK_OVERHEAD
               state := st }
      else if x = blockAddr arena (i + 1) then none
      else blockAt arena x := by
  have hpre : spanSum (arena.take i) = blockAddr arena i := spanSum_take arena i
  have hsucc : blockAddr arena (i + 1) = blockAddr arena i + blockSpan lb :=
    blockAddr_get?_succ hget
  have hdecomp : arena = arena.take i ++ [lb, ab] ++ arena.drop (i + 2) := by
    have h1 := arena_decomp hget
    have h2 := drop_eq_cons_of_get? hnext
    rw [h2] at h1
    simpa using h1
  have horig : blockAt arena x =
      if x < blockAddr arena i then blockAt (arena.take i) x
      else if x - blockAddr arena i < blockSpan lb + blockSpan ab then
        blockAt [lb, ab] (x - blockAddr arena i)
      else blockAt (arena.drop (i + 2))
        (x - blockAddr arena i - (blockSpan lb + blockSpan ab)) := by
    conv_lhs => rw [hdecomp]
    rw [blockAt_append_mid, hpre, spanSum_pair]
  have hnew : blockAt (arena.take i ++
        { size := lb.size + ab.size + EL_BLOCK_OVERHEAD
          fsize := lb.size + ab.size + EL_BLOCK_OVERHEAD
          state := st } :: arena.drop (i + 2)) x =
      if x < blockAddr arena i then blockAt (arena.take i) x
      else if x - blockAddr arena i <
          blockSpan { size := lb.size + ab.size + EL_BLOCK_OVERHEAD
                      fsize := lb.size + ab.size + EL_BLOCK_OVERHEAD
                      state := st } then
        blockAt [{ size := lb.size + ab.size + EL_BLOCK_OVERHEAD
                   fsize := lb.size + ab.size + EL_BLOCK_OVERHEAD
                   state := st }] (x - blockAddr arena i)
      else blockAt (arena.drop (i + 2)) (x - blockAddr arena i -
        blockSpan { size := lb.size + ab.size + EL_BLOCK_OVERHEAD
                    fsize := lb.size + ab.size + EL_BLOCK_OVERHEAD
                    state := st }) := by
    rw [show arena.take i ++
        { size := lb.size + ab.size + EL_BLOCK_OVERHEAD
          fsize := lb.size + ab.size + EL_BLOCK_OVERHEAD
          state := st } :: arena.drop (i + 2)
        = arena.take i ++
          [{ size := lb.size + ab.size + EL_BLOCK_OVERHEAD
             fsize := lb.size + ab.size + EL_BLOCK_OVERHEAD
             state := st }] ++ arena.drop (i + 2) by simp]
    rw [blockAt_append_mid, hpre, spanSum_single]
  have hspanM : blockSpan { size := lb.size + ab.size + EL_BLOCK_OVERHEAD
                            fsize := lb.size + ab.size + EL_BLOCK_OVERHEAD
                            state := st }
      = EL_BLOCK_OVERHEAD + (lb.size + ab.size + EL_BLOCK_OVERHEAD) := rfl
  have hspanl : blockSpan lb = EL_BLOCK_OVERHEAD + lb.size := rfl
  have hspana : blockSpan ab = EL_BLOCK_OVERHEAD + ab.size := rfl
  have hov40 : EL_BLOCK_OVERHEAD = 40 := rfl
  rw [hnew, horig, hsucc]
  rw [hspanM, hspanl, hspana]
  set A := blockAddr arena i with hA
  by_cases h1 : x < A
  · rw [if_pos h1, if_neg (show ¬ x = A by omega),
      if_neg (show ¬ x = A + (EL_BLOCK_OVERHEAD + lb.size) by omega), if_pos h1]
  · rw [if_neg h1]
    by_cases h2 : x = A
    · subst h2
      rw [if_pos (show A - A < EL_BLOCK_OVERHEAD +
            (lb.size + ab.size + EL_BLOCK_OVERHEAD) by omega),
        blockAt_single, if_pos (show A - A = 0 by omega), if_pos rfl]
    · by_cases h3 : x = A + (EL_BLOCK_OVERHEAD + lb.size)
      · rw [if_pos (show x - A < EL_BLOCK_OVERHEAD +
              (lb.size + ab.size + EL_BLOCK_OVERHEAD) by omega),
          blockAt_single, if_neg (show ¬ x - A = 0 by omega),
          if_neg h2, if_pos h3]
      · rw [if_neg h2, if_neg h3]
        by_cases h4 : x - A < EL_BLOCK_OVERHEAD + (lb.size + ab.size + EL_BLOCK_OVERHEAD)
        · rw [if_pos h4, blockAt_single, if_neg (show ¬ x - A = 0 by omega),
            if_neg h1,
            if_pos (show x - A < EL_BLOCK_OVERHEAD + lb.size +
              (EL_BLOCK_OVERHEAD + ab.size) by omega),
            blockAt_pair, if_neg (show ¬ x - A = 0 by omega),
            if_neg (show ¬ x - A = blockSpan lb by rw [hspanl]; omega)]
        · rw [if_neg h4, if_neg h1,
            if_neg (show ¬ x - A < EL_BLOCK_OVERHEAD + lb.size +
              (EL_BLOCK_OVERHEAD + ab.size) by omega)]
          congr 1
          omega

/-! ### The block below -/

lemma footOwnerIdx_blockAddr {arena : List Block} {k : Nat}
    (h : k < arena.length) :
    footOwnerIdx arena (blockAddr arena (k + 1)) = some k := by
  induction arena generalizing k with
  | nil => simp at h
  | cons b rest ih =>
    cases k with
    | zero =>
      simp [footOwnerIdx, blockAddr_cons_succ, blockAddr_zero]
    | succ k' =>
      have hk : k' < rest.length := by simpa using h
      have hpos : 0 < blockAddr rest (k' + 1) := by
        have := @blockAddr_lt_blockAddr rest 0 (k' + 1)
          (by omega) (by omega)
        simpa [blockAddr_zero] using this
      have hne : ¬ blockSpan b + blockAddr rest (k' + 1) = blockSpan b := by omega
      have hge : ¬ blockSpan b + blockAddr rest (k' + 1) < blockSpan b := by omega
      simp only [blockAddr_cons_succ, footOwnerIdx, if_neg hne, if_neg hge,
        Nat.add_sub_cancel_left, ih hk, Option.map_some']

/-- `el_block_below` on the block at index `k + 1` steps back over the
predecessor's footer to the predecessor's header, provided that footer
agrees with the predecessor's header size. -/
lemma el_block_below_shape {s : ElCtl} {a k : Nat} {pb : Block}
    (hidx : idxOfAddr s.arena a = some (k + 1))
    (hpb : s.arena.get? k = some pb)
    (hfoot : pb.fsize = pb.size) :
    el_block_below s a = some (blockAddr s.arena k) := by
  have haddr : blockAddr s.arena (k + 1) = a := (idxOfAddr_some hidx).2
  have hk : k < s.arena.length := by
    have := (idxOfAddr_some hidx).1
    omega
  have hsucc : blockAddr s.arena (k + 1) = blockAddr s.arena k + blockSpan pb :=
    blockAddr_get?_succ hpb
  have hspan : blockSpan pb = EL_BLOCK_OVERHEAD + pb.size := rfl
  have hov : EL_BLOCK_OVERHEAD = sizeof_blockhead + sizeof_blockfoot := rfl
  have hge : ¬ a < sizeof_blockfoot := by omega
  have hfo : footOwnerIdx s.arena a = some k := by
    rw [← haddr]
    exact footOwnerIdx_blockAddr hk
  rw [el_block_below, if_neg hge]
  simp only [hfo, hpb]
  congr 1
  rw [hfoot]
  omega

/-- `el_block_below` at the bottom block: the footer below address `0`
would be off the heap. -/
lemma el_block_below_bottom {s : ElCtl} {a : Nat}
    (hidx : idxOfAddr s.arena a = some 0) :
    el_block_below s a = none := by
  have haddr : blockAddr s.arena 0 = a := (idxOfAddr_some hidx).2
  rw [blockAddr_zero] at haddr
  have : a < sizeof_blockfoot := by
    rw [← haddr]
    simp [sizeof_blockfoot]
  rw [el_block_below, if_pos this]

/-! ### Establishing the invariant -/

/-- Pointwise effect on lookup of overwriting the block at index `i` by a
block of equal span (a pure header-state or footer write). -/
lemma blockAt_set_char {arena : List Block} {i : Nat} {b b' : Block}
    (hget : arena.get? i = some b) (hspan : blockSpan b' = blockSpan b)
    (x : Nat) :
    blockAt (arena.take i ++ b' :: arena.drop (i + 1)) x =
      if x = blockAddr arena i then some b' else blockAt arena x := by
  have hpre : spanSum (arena.take i) = blockAddr arena i := spanSum_take arena i
  have hdecomp := arena_decomp hget
  have horig : blockAt arena x =
      if x < blockAddr arena i then blockAt (arena.take i) x
      else if x - blockAddr arena i < blockSpan b then
        blockAt [b] (x - blockAddr arena i)
      else blockAt (arena.drop (i + 1)) (x - blockAddr arena i - blockSpan b) := by
    conv_lhs => rw [hdecomp]
    rw [show arena.take i ++ b :: arena.drop (i + 1)
        = arena.take i ++ [b] ++ arena.drop (i + 1) by simp]
    rw [blockAt_append_mid, hpre, spanSum_single]
  have hnew : blockAt (arena.take i ++ b' :: arena.drop (i + 1)) x =
      if x < blockAddr arena i then blockAt (arena.take i) x
      else if x - blockAddr arena i < blockSpan b' then
        blockAt [b'] (x - blockAddr arena i)
      else blockAt (arena.drop (i + 1)) (x - blockAddr arena i - blockSpan b') := by
    rw [show arena.take i ++ b' :: arena.drop (i + 1)
        = arena.take i ++ [b'] ++ arena.drop (i + 1) by simp]
    rw [blockAt_append_mid, hpre, spanSum_single]
  have hbpos := blockSpan_pos b
  rw [hnew, horig, hspan]
  set A := blockAddr arena i with hA
  by_cases h1 : x < A
  · rw [if_pos h1, if_neg (show ¬ x = A by omega), if_pos h1]
  · rw [if_neg h1]
    by_cases h2 : x = A
    · subst h2
      rw [if_pos (show A - A < blockSpan b by omega), blockAt_single,
        if_pos (show A - A = 0 by omega), if_pos rfl]
    · rw [if_neg h2]
      by_cases h3 : x - A < blockSpan b
      · rw [if_pos h3, blockAt_single, if_neg (show ¬ x - A = 0 by omega),
          if_neg h1, if_pos h3, blockAt_single,
          if_neg (show ¬ x - A = 0 by omega)]
      · rw [if_neg h3, if_neg h1, if_neg h3]

lemma blockAddr_mono {arena : List Block} {i j : Nat}
    (hij : i ≤ j) (hj : j ≤ arena.length) :
    blockAddr arena i ≤ blockAddr arena j := by
  rcases Nat.eq_or_lt_of_le hij with rfl | hlt
  · exact Nat.le_refl _
  · exact Nat.le_of_lt (blockAddr_lt_blockAddr hlt hj)

/-- Any address strictly between two consecutive block addresses resolves
to no block. -/
lemma blockAt_between {arena : List Block} {i x : Nat}
    (hi : i < arena.length)
    (hlo : blockAddr arena i < x) (hhi : x < blockAddr arena (i + 1)) :
    blockAt arena x = none := by
  cases hb : blockAt arena x with
  | none => rfl
  | some c =>
    obtain ⟨j, _, hjlen, hja, _⟩ := blockAt_some_elim hb
    by_cases hj : j ≤ i
    · have := @blockAddr_mono arena _ _ hj (by omega)
      omega
    · have : i + 1 ≤ j := by omega
      have := @blockAddr_mono arena _ _ this (by omega)
      omega

/-- `el_init` establishes the full invariant. -/
lemma inv_init {hb : Nat} {s : ElCtl} (h : el_init hb = some s) : Inv s := by
  rw [el_init] at h
  by_cases hsmall : hb < EL_BLOCK_OVERHEAD
  · rw [if_pos hsmall] at h
    cases h
  · rw [if_neg hsmall] at h
    cases h
    have hov40 : EL_BLOCK_OVERHEAD = 40 := rfl
    have hbat0 : ∀ x, blockAt
        [{ size := hb - EL_BLOCK_OVERHEAD, fsize := hb - EL_BLOCK_OVERHEAD,
           state := BlockState.available }] x =
        if x = 0 then some { size := hb - EL_BLOCK_OVERHEAD
                             fsize := hb - EL_BLOCK_OVERHEAD
                             state := BlockState.available } else none := by
      intro x
      exact blockAt_single _ x
    refine ⟨⟨?_, ?_, ?_, ?_, ?_, ?_, ?_, ?_, ?_, ?_, ?_⟩, ?_⟩
    · simp [spanSum, blockSpan]
      omega
    · intro c hc
      simp at hc
      subst hc
      rfl
    · intro c hc
      simp at hc
      subst hc
      simp
    · intro a
      constructor
      · intro ha
        simp [el_add_block_front, el_init_blocklist] at ha
        subst ha
        exact ⟨_, by rw [hbat0, if_pos rfl], rfl⟩
      · rintro ⟨c, hc, hcs⟩
        rw [hbat0] at hc
        by_cases hx : a = 0
        · simp [el_add_block_front, el_init_blocklist, hx]
        · rw [if_neg hx] at hc
          cases hc
    · intro a
      constructor
      · intro ha
        simp [el_init_blocklist] at ha
      · rintro ⟨c, hc, hcs⟩
        rw [hbat0] at hc
        by_cases hx : a = 0
        · rw [if_pos hx] at hc
          cases hc
          cases hcs
        · rw [if_neg hx] at hc
          cases hc
    · simp [el_add_block_front, el_init_blocklist]
    · simp [el_init_blocklist]
    · simp [el_add_block_front, el_init_blocklist]
    · simp [el_init_blocklist]
    · simp [el_add_block_front, el_init_blocklist, listSum, sizeAtD]
      rw [hbat0, if_pos rfl]
    · simp [el_init_blocklist, listSum]
    · exact List.chain'_singleton _

/-- `el_malloc` preserves the full invariant. -/
lemma inv_malloc {s s' : ElCtl} {n : Nat} {r : Option Nat}
    (h : Inv s) (hm : el_malloc s n = some (s', r)) : Inv s' := by
  cases hfind : el_find_first_avail s n with
  | none =>
    rw [el_malloc, hfind] at hm
    cases hm
    exact h
  | some fa =>
    have hfind' := hfind
    rw [el_find_first_avail] at hfind'
    obtain ⟨hmem, b0, hb0, hfit⟩ := el_find_loop_some hfind'
    obtain ⟨b1, hb1, hb0s⟩ := (h.avail_mem fa).1 hmem
    rw [hb0] at hb1
    cases hb1
    obtain ⟨i, hidx, hlen, haddr, hget⟩ := blockAt_some_elim hb0
    rw [el_malloc_shape hfind hidx hget hfit] at hm
    cases hm
    have hov40 : EL_BLOCK_OVERHEAD = 40 := rfl
    have hspanb : blockSpan b0 = EL_BLOCK_OVERHEAD + b0.size := rfl
    have hsucc : blockAddr s.arena (i + 1)
        = blockAddr s.arena i + blockSpan b0 := blockAddr_get?_succ hget
    have char : ∀ x, blockAt (s.arena.take i ++
          { size := n, fsize := n, state := BlockState.used } ::
          { size := b0.size - n - EL_BLOCK_OVERHEAD
            fsize := b0.size - n - EL_BLOCK_OVERHEAD
            state := BlockState.available } :: s.arena.drop (i + 1)) x =
        if x = fa then some { size := n, fsize := n, state := BlockState.used }
        else if x = fa + n + EL_BLOCK_OVERHEAD then
          some { size := b0.size - n - EL_BLOCK_OVERHEAD
                 fsize := b0.size - n - EL_BLOCK_OVERHEAD
                 state := BlockState.available }
        else blockAt s.arena x := by
      intro x
      have hc := blockAt_split_char hget hfit BlockState.used BlockState.available x
      rwa [haddr] at hc
    have hsa_none : blockAt s.arena (fa + n + EL_BLOCK_OVERHEAD) = none := by
      apply blockAt_between hlen <;> omega
    have hfa_ne_sa : fa ≠ fa + n + EL_BLOCK_OVERHEAD := by omega
    have hsa_nomem_avail : fa + n + EL_BLOCK_OVERHEAD ∉ s.avail.blocks := by
      intro hmem'
      obtain ⟨c, hc, _⟩ := (h.avail_mem _).1 hmem'
      rw [hsa_none] at hc
      cases hc
    have hsa_nomem_used : fa + n + EL_BLOCK_OVERHEAD ∉ s.used.blocks := by
      intro hmem'
      obtain ⟨c, hc, _⟩ := (h.used_mem _).1 hmem'
      rw [hsa_none] at hc
      cases hc
    have hfa_nomem_used : fa ∉ s.used.blocks := by
      intro hmem'
      obtain ⟨c, hc, hcs⟩ := (h.used_mem _).1 hmem'
      rw [hb0] at hc
      cases hc
      rw [hb0s] at hcs
      cases hcs
    have hmem_erase : ∀ a ∈ s.avail.blocks.erase fa,
        a ≠ fa ∧ a ≠ fa + n + EL_BLOCK_OVERHEAD ∧ a ∈ s.avail.blocks := by
      intro a ha
      obtain ⟨hne, hin⟩ := (List.Nodup.mem_erase_iff h.avail_nodup).1 ha
      refine ⟨hne, ?_, hin⟩
      intro hcon
      subst hcon
      exact hsa_nomem_avail hin
    have hmem_used : ∀ a ∈ s.used.blocks,
        a ≠ fa ∧ a ≠ fa + n + EL_BLOCK_OVERHEAD := by
      intro a ha
      constructor
      · intro hcon
        subst hcon
        exact hfa_nomem_used ha
      · intro hcon
        subst hcon
        exact hsa_nomem_used ha
    refine ⟨⟨?_, ?_, ?_, ?_, ?_, ?_, ?_, ?_, ?_, ?_, ?_⟩, ?_⟩
    · -- cover
      have hd := arena_decomp hget
      have : spanSum (s.arena.take i ++
          { size := n, fsize := n, state := BlockState.used } ::
          { size := b0.size - n - EL_BLOCK_OVERHEAD
            fsize := b0.size - n - EL_BLOCK_OVERHEAD
            state := BlockState.available } :: s.arena.drop (i + 1))
          = spanSum s.arena := by
        conv_rhs => rw [hd]
        simp only [spanSum_append, spanSum_cons, blockSpan]
        omega
      rw [this]
      exact h.cover
    · -- foots
      intro c hc
      rcases List.mem_append.1 hc with hc | hc
      · exact h.foots c (List.mem_of_mem_take hc)
      · rcases hc with _ | ⟨_, hc⟩
        · rfl
        · rcases hc with _ | ⟨_, hc⟩
          · rfl
          · exact h.foots c (List.mem_of_mem_drop hc)
    · -- states
      intro c hc
      rcases List.mem_append.1 hc with hc | hc
      · exact h.states c (List.mem_of_mem_take hc)
      · rcases hc with _ | ⟨_, hc⟩
        · simp
        · rcases hc with _ | ⟨_, hc⟩
          · simp
          · exact h.states c (List.mem_of_mem_drop hc)
    · -- avail_mem
      intro a
      constructor
      · intro ha
        rcases ha with _ | ⟨_, ha⟩
        · exact ⟨_, by rw [char, if_neg (Ne.symm hfa_ne_sa), if_pos rfl], rfl⟩
        · obtain ⟨hne, hnesa, hin⟩ := hmem_erase a ha
          obtain ⟨c, hc, hcs⟩ := (h.avail_mem a).1 hin
          exact ⟨c, by rw [char, if_neg hne, if_neg hnesa]; exact hc, hcs⟩
      · rintro ⟨c, hc, hcs⟩
        rw [char] at hc
        by_cases h1 : a = fa
        · rw [if_pos h1] at hc
          cases hc
          cases hcs
        · rw [if_neg h1] at hc
          by_cases h2 : a = fa + n + EL_BLOCK_OVERHEAD
          · subst h2
            exact List.mem_cons_self _ _
          · rw [if_neg h2] at hc
            have hin : a ∈ s.avail.blocks := (h.avail_mem a).2 ⟨c, hc, hcs⟩
            exact List.mem_cons_of_mem _
              ((List.Nodup.mem_erase_iff h.avail_nodup).2 ⟨h1, hin⟩)
    · -- used_mem
      intro a
      constructor
      · intro ha
        rcases ha with _ | ⟨_, ha⟩
        · exact ⟨_, by rw [char, if_pos rfl], rfl⟩
        · obtain ⟨hne, hnesa⟩ := hmem_used a ha
          obtain ⟨c, hc, hcs⟩ := (h.used_mem a).1 ha
          exact ⟨c, by rw [char, if_neg hne, if_neg hnesa]; exact hc, hcs⟩
      · rintro ⟨c, hc, hcs⟩
        rw [char] at hc
        by_cases h1 : a = fa
        · subst h1
          exact List.mem_cons_self _ _
        · rw [if_neg h1] at hc
          by_cases h2 : a = fa + n + EL_BLOCK_OVERHEAD
          · rw [if_pos h2] at hc
            cases hc
            cases hcs
          · rw [if_neg h2] at hc
            exact List.mem_cons_of_mem _ ((h.used_mem a).2 ⟨c, hc, hcs⟩)
    · -- avail_nodup
      refine List.nodup_cons.2 ⟨?_, h.avail_nodup.erase fa⟩
      intro hcon
      exact hsa_nomem_avail (List.mem_of_mem_erase hcon)
    · -- used_nodup
      exact List.nodup_cons.2 ⟨hfa_nomem_used, h.used_nodup⟩
    · -- avail_len
      dsimp only
      simp only [List.length_cons, List.length_erase_of_mem hmem, h.avail_len]
    · -- used_len
      simp [h.used_len]
    · -- avail_bytes
      have hone := @listSum_erase s.arena _ _ hmem
      have hsz : sizeAtD s.arena fa = b0.size := by rw [sizeAtD, hb0]
      rw [hsz] at hone
      have hcongr : listSum (s.arena.take i ++
          { size := n, fsize := n, state := BlockState.used } ::
          { size := b0.size - n - EL_BLOCK_OVERHEAD
            fsize := b0.size - n - EL_BLOCK_OVERHEAD
            state := BlockState.available } :: s.arena.drop (i + 1))
          (s.avail.blocks.erase fa) = listSum s.arena (s.avail.blocks.erase fa) := by
        apply listSum_congr
        intro a ha
        obtain ⟨hne, hnesa, _⟩ := hmem_erase a ha
        rw [sizeAtD, sizeAtD, char, if_neg hne, if_neg hnesa]
      have hhead : sizeAtD (s.arena.take i ++
          { size := n, fsize := n, state := BlockState.used } ::
          { size := b0.size - n - EL_BLOCK_OVERHEAD
            fsize := b0.size - n - EL_BLOCK_OVERHEAD
            state := BlockState.available } :: s.arena.drop (i + 1))
          (fa + n + EL_BLOCK_OVERHEAD) = b0.size - n - EL_BLOCK_OVERHEAD := by
        rw [sizeAtD, char, if_neg (Ne.symm hfa_ne_sa), if_pos rfl]
      dsimp only
      rw [listSum_cons, hhead, hcongr, h.avail_bytes, hone]
      omega
    · -- used_bytes
      have hcongr : listSum (s.arena.take i ++
          { size := n, fsize := n, state := BlockState.used } ::
          { size := b0.size - n - EL_BLOCK_OVERHEAD
            fsize := b0.size - n - EL_BLOCK_OVERHEAD
            state := BlockState.available } :: s.arena.drop (i + 1))
          s.used.blocks = listSum s.arena s.used.blocks := by
        apply listSum_congr
        intro a ha
        obtain ⟨hne, hnesa⟩ := hmem_used a ha
        rw [sizeAtD, sizeAtD, char, if_neg hne, if_neg hnesa]
      have hhead : sizeAtD (s.arena.take i ++
          { size := n, fsize := n, state := BlockState.used } ::
          { size := b0.size - n - EL_BLOCK_OVERHEAD
            fsize := b0.size - n - EL_BLOCK_OVERHEAD
            state := BlockState.available } :: s.arena.drop (i + 1)) fa = n := by
        rw [sizeAtD, char, if_pos rfl]
      dsimp only
      rw [listSum_cons, hhead, hcongr, h.used_bytes]
      omega
    · -- coal
      have hco2 : List.Chain' NoAdjAvail
          (s.arena.take i ++ b0 :: s.arena.drop (i + 1)) := by
        rw [← arena_decomp hget]
        exact h.coal
      obtain ⟨hc1, hc2, hc3⟩ := List.chain'_append.1 hco2
      obtain ⟨hhead, hc4⟩ := List.chain'_cons'.1 hc2
      refine List.chain'_append.2 ⟨hc1, ?_, ?_⟩
      · refine List.chain'_cons'.2 ⟨?_, List.chain'_cons'.2 ⟨?_, hc4⟩⟩
        · intro y _
          simp [NoAdjAvail]
        · intro y hy
          have h5 := hhead y hy
          simp only [NoAdjAvail, hb0s, eq_self_iff_true, true_and] at h5
          simp only [NoAdjAvail]
          intro hcon
          exact h5 hcon.2
      · intro x hx y hy
        simp only [List.head?_cons, Option.mem_some_iff] at hy
        subst hy
        simp [NoAdjAvail]

/-- The bookkeeping invariant survives the first phase of `el_free`: the
USED block at `a` leaves the used list, becomes AVAILABLE, and is pushed
onto the front of the available list.  (Coalescing may be broken here.) -/
lemma invcore_free_stage {s : ElCtl} {a k : Nat} {hb : Block}
    (h : InvCore s)
    (hidx : idxOfAddr s.arena a = some k)
    (hget : s.arena.get? k = some hb)
    (hst : hb.state = BlockState.used) :
    InvCore
      { heap_bytes := s.heap_bytes
        arena := s.arena.take k ++
          { size := hb.size, fsize := hb.fsize, state := BlockState.available } ::
          s.arena.drop (k + 1)
        avail := { blocks := a :: s.avail.blocks
                   length := s.avail.length + 1
                   bytes := s.avail.bytes + (EL_BLOCK_OVERHEAD + hb.size) }
        used := { blocks := s.used.blocks.erase a
                  length := s.used.length - 1
                  bytes := s.used.bytes - (EL_BLOCK_OVERHEAD + hb.size) } } := by
  have haddr : blockAddr s.arena k = a := (idxOfAddr_some hidx).2
  have hBat : blockAt s.arena a = some hb := by
    rw [blockAt, hidx, Option.some_bind, hget]
  have char : ∀ x, blockAt (s.arena.take k ++
        { size := hb.size, fsize := hb.fsize, state := BlockState.available } ::
        s.arena.drop (k + 1)) x =
      if x = a then
        some { size := hb.size, fsize := hb.fsize, state := BlockState.available }
      else blockAt s.arena x := by
    intro x
    have hc := @blockAt_set_char s.arena k hb
      { size := hb.size, fsize := hb.fsize, state := BlockState.available }
      hget (by rfl) x
    rwa [haddr] at hc
  have ha_used : a ∈ s.used.blocks := (h.used_mem a).2 ⟨hb, hBat, hst⟩
  have ha_navail : a ∉ s.avail.blocks := by
    intro hcon
    obtain ⟨c, hc, hcs⟩ := (h.avail_mem a).1 hcon
    rw [hBat] at hc
    cases hc
    rw [hst] at hcs
    cases hcs
  have hfoot : hb.fsize = hb.size := h.foots hb (List.get?_mem hget)
  refine ⟨?_, ?_, ?_, ?_, ?_, ?_, ?_, ?_, ?_, ?_, ?_⟩
  · -- cover
    have hd := arena_decomp hget
    have heq : spanSum (s.arena.take k ++
        { size := hb.size, fsize := hb.fsize, state := BlockState.available } ::
        s.arena.drop (k + 1)) = spanSum s.arena := by
      conv_rhs => rw [hd]
      simp only [spanSum_append, spanSum_cons, blockSpan]
    rw [heq]
    exact h.cover
  · intro c hc
    rcases List.mem_append.1 hc with hc | hc
    · exact h.foots c (List.mem_of_mem_take hc)
    · rcases hc with _ | ⟨_, hc⟩
      · exact hfoot
      · exact h.foots c (List.mem_of_mem_drop hc)
  · intro c hc
    rcases List.mem_append.1 hc with hc | hc
    · exact h.states c (List.mem_of_mem_take hc)
    · rcases hc with _ | ⟨_, hc⟩
      · simp
      · exact h.states c (List.mem_of_mem_drop hc)
  · -- avail_mem
    intro x
    constructor
    · intro hx
      rcases hx with _ | ⟨_, hx⟩
      · exact ⟨_, by rw [char, if_pos rfl], rfl⟩
      · obtain ⟨c, hc, hcs⟩ := (h.avail_mem x).1 hx
        have hne : x ≠ a := by
          intro hcon
          subst hcon
          exact ha_navail hx
        exact ⟨c, by rw [char, if_neg hne]; exact hc, hcs⟩
    · rintro ⟨c, hc, hcs⟩
      rw [char] at hc
      by_cases h1 : x = a
      · subst h1
        exact List.mem_cons_self _ _
      · rw [if_neg h1] at hc
        exact List.mem_cons_of_mem _ ((h.avail_mem x).2 ⟨c, hc, hcs⟩)
  · -- used_mem
    intro x
    constructor
    · intro hx
      obtain ⟨hne, hin⟩ := (List.Nodup.mem_erase_iff h.used_nodup).1 hx
      obtain ⟨c, hc, hcs⟩ := (h.used_mem x).1 hin
      exact ⟨c, by rw [char, if_neg hne]; exact hc, hcs⟩
    · rintro ⟨c, hc, hcs⟩
      rw [char] at hc
      by_cases h1 : x = a
      · rw [if_pos h1] at hc
        cases hc
        cases hcs
      · rw [if_neg h1] at hc
        exact (List.Nodup.mem_erase_iff h.used_nodup).2
          ⟨h1, (h.used_mem x).2 ⟨c, hc, hcs⟩⟩
  · exact List.nodup_cons.2 ⟨ha_navail, h.avail_nodup⟩
  · exact h.used_nodup.erase a
  · dsimp only
    simp [h.avail_len]
  · dsimp only
    simp only [List.length_erase_of_mem ha_used, h.used_len]
  · -- avail_bytes
    have hcongr : listSum (s.arena.take k ++
        { size := hb.size, fsize := hb.fsize, state := BlockState.available } ::
        s.arena.drop (k + 1)) s.avail.blocks
        = listSum s.arena s.avail.blocks := by
      apply listSum_congr
      intro x hx
      have hne : x ≠ a := by
        intro hcon
        subst hcon
        exact ha_navail hx
      rw [sizeAtD, sizeAtD, char, if_neg hne]
    have hhead : sizeAtD (s.arena.take k ++
        { size := hb.size, fsize := hb.fsize, state := BlockState.available } ::
        s.arena.drop (k + 1)) a = hb.size := by
      rw [sizeAtD, char, if_pos rfl]
    dsimp only
    rw [listSum_cons, hhead, hcongr, h.avail_bytes]
    omega
  · -- used_bytes
    have hone := @listSum_erase s.arena _ _ ha_used
    have hsz : sizeAtD s.arena a = hb.size := by rw [sizeAtD, hBat]
    rw [hsz] at hone
    have hcongr : listSum (s.arena.take k ++
        { size := hb.size, fsize := hb.fsize, state := BlockState.available } ::
        s.arena.drop (k + 1)) (s.used.blocks.erase a)
        = listSum s.arena (s.used.blocks.erase a) := by
      apply listSum_congr
      intro x hx
      have hne : x ≠ a := ((List.Nodup.mem_erase_iff h.used_nodup).1 hx).1
      rw [sizeAtD, sizeAtD, char, if_neg hne]
    dsimp only
    rw [hcongr, h.used_bytes, hone]
    omega

/-- `el_merge_block_with_above` preserves the bookkeeping invariant. -/
lemma invcore_merge {s t : ElCtl} {la : Nat}
    (h : InvCore s) (hm : el_merge_block_with_above s (some la) = some t) :
    InvCore t := by
  cases hidx : idxOfAddr s.arena la with
  | none =>
    rw [el_merge_block_with_above] at hm
    simp only [hidx] at hm
    cases hm
  | some i =>
    cases hget : s.arena.get? i with
    | none =>
      rw [el_merge_block_with_above] at hm
      simp only [hidx, hget] at hm
      cases hm
    | some lb =>
      have haddr : blockAddr s.arena i = la := (idxOfAddr_some hidx).2
      have hlen : i < s.arena.length := (idxOfAddr_some hidx).1
      by_cases hlb : lb.state = BlockState.available
      · by_cases hi1 : i + 1 < s.arena.length
        · obtain ⟨ab, hnext⟩ : ∃ ab, s.arena.get? (i + 1) = some ab := by
            rw [List.get?_eq_get hi1]
            exact ⟨_, rfl⟩
          by_cases hab : ab.state = BlockState.available
          · rw [el_merge_shape hidx hget h.cover hlb hnext hab] at hm
            cases hm
            have hBat : blockAt s.arena la = some lb := by
              rw [blockAt, hidx, Option.some_bind, hget]
            have hBat1 : blockAt s.arena (blockAddr s.arena (i + 1)) = some ab := by
              rw [blockAt_blockAddr hi1, hnext]
            have hla_ne : la ≠ blockAddr s.arena (i + 1) := by
              have := @blockAddr_lt_blockAddr s.arena i (i + 1)
                (by omega) (by omega)
              omega
            have char : ∀ x, blockAt (s.arena.take i ++
                  { size := lb.size + ab.size + EL_BLOCK_OVERHEAD
                    fsize := lb.size + ab.size + EL_BLOCK_OVERHEAD
                    state := BlockState.available } :: s.arena.drop (i + 2)) x =
                if x = la then
                  some { size := lb.size + ab.size + EL_BLOCK_OVERHEAD
                         fsize := lb.size + ab.size + EL_BLOCK_OVERHEAD
                         state := BlockState.available }
                else if x = blockAddr s.arena (i + 1) then none
                else blockAt s.arena x := by
              intro x
              have hc := blockAt_merge_char hget hnext BlockState.available x
              rwa [haddr] at hc
            have hla_mem : la ∈ s.avail.blocks := (h.avail_mem la).2 ⟨lb, hBat, hlb⟩
            have haa_mem : blockAddr s.arena (i + 1) ∈ s.avail.blocks :=
              (h.avail_mem _).2 ⟨ab, hBat1, hab⟩
            have hla_nused : la ∉ s.used.blocks := by
              intro hcon
              obtain ⟨c, hc, hcs⟩ := (h.used_mem la).1 hcon
              rw [hBat] at hc
              cases hc
              rw [hlb] at hcs
              cases hcs
            have haa_nused : blockAddr s.arena (i + 1) ∉ s.used.blocks := by
              intro hcon
              obtain ⟨c, hc, hcs⟩ := (h.used_mem _).1 hcon
              rw [hBat1] at hc
              cases hc
              rw [hab] at hcs
              cases hcs
            have hla_mem_er : la ∈ s.avail.blocks.erase (blockAddr s.arena (i + 1)) :=
              (List.Nodup.mem_erase_iff h.avail_nodup).2 ⟨hla_ne, hla_mem⟩
            have hmem_dbl : ∀ x,
                x ∈ (s.avail.blocks.erase (blockAddr s.arena (i + 1))).erase la →
                x ≠ la ∧ x ≠ blockAddr s.arena (i + 1) ∧ x ∈ s.avail.blocks := by
              intro x hx
              obtain ⟨hx1, hx2⟩ :=
                (List.Nodup.mem_erase_iff (h.avail_nodup.erase _)).1 hx
              obtain ⟨hx3, hx4⟩ := (List.Nodup.mem_erase_iff h.avail_nodup).1 hx2
              exact ⟨hx1, hx3, hx4⟩
            have hdecomp : s.arena
                = s.arena.take i ++ lb :: ab :: s.arena.drop (i + 2) := by
              have h1 := arena_decomp hget
              have h2 := drop_eq_cons_of_get? hnext
              rw [h2] at h1
              exact h1
            refine ⟨?_, ?_, ?_, ?_, ?_, ?_, ?_, ?_, ?_, ?_, ?_⟩
            · have heq : spanSum (s.arena.take i ++
                  { size := lb.size + ab.size + EL_BLOCK_OVERHEAD
                    fsize := lb.size + ab.size + EL_BLOCK_OVERHEAD
                    state := BlockState.available } :: s.arena.drop (i + 2))
                  = spanSum s.arena := by
                conv_rhs => rw [hdecomp]
                simp only [spanSum_append, spanSum_cons, blockSpan]
                omega
              rw [heq]
              exact h.cover
            · intro c hc
              rcases List.mem_append.1 hc with hc | hc
              · exact h.foots c (List.mem_of_mem_take hc)
              · rcases hc with _ | ⟨_, hc⟩
                · rfl
                · exact h.foots c (List.mem_of_mem_drop hc)
            · intro c hc
              rcases List.mem_append.1 hc with hc | hc
              · exact h.states c (List.mem_of_mem_take hc)
              · rcases hc with _ | ⟨_, hc⟩
                · simp
                · exact h.states c (List.mem_of_mem_drop hc)
            · intro x
              constructor
              · intro hx
                rcases hx with _ | ⟨_, hx⟩
                · exact ⟨_, by rw [char, if_pos rfl], rfl⟩
                · obtain ⟨hx1, hx2, hx3⟩ := hmem_dbl x hx
                  obtain ⟨c, hc, hcs⟩ := (h.avail_mem x).1 hx3
                  exact ⟨c, by rw [char, if_neg hx1, if_neg hx2]; exact hc, hcs⟩
              · rintro ⟨c, hc, hcs⟩
                rw [char] at hc
                by_cases h1 : x = la
                · subst h1
                  exact List.mem_cons_self _ _
                · rw [if_neg h1] at hc
                  by_cases h2 : x = blockAddr s.arena (i + 1)
                  · rw [if_pos h2] at hc
                    cases hc
                  · rw [if_neg h2] at hc
                    refine List.mem_cons_of_mem _ ?_
                    refine (List.Nodup.mem_erase_iff (h.avail_nodup.erase _)).2
                      ⟨h1, ?_⟩
                    exact (List.Nodup.mem_erase_iff h.avail_nodup).2
                      ⟨h2, (h.avail_mem x).2 ⟨c, hc, hcs⟩⟩
            · intro x
              constructor
              · intro hx
                obtain ⟨c, hc, hcs⟩ := (h.used_mem x).1 hx
                have hx1 : x ≠ la := by
                  intro hcon
                  subst hcon
                  exact hla_nused hx
                have hx2 : x ≠ blockAddr s.arena (i + 1) := by
                  intro hcon
                  subst hcon
                  exact haa_nused hx
                exact ⟨c, by rw [char, if_neg hx1, if_neg hx2]; exact hc, hcs⟩
              · rintro ⟨c, hc, hcs⟩
                rw [char] at hc
                by_cases h1 : x = la
                · rw [if_pos h1] at hc
                  cases hc
                  cases hcs
                · rw [if_neg h1] at hc
                  by_cases h2 : x = blockAddr s.arena (i + 1)
                  · rw [if_pos h2] at hc
                    cases hc
                  · rw [if_neg h2] at hc
                    exact (h.used_mem x).2 ⟨c, hc, hcs⟩
            · refine List.nodup_cons.2 ⟨?_, (h.avail_nodup.erase _).erase _⟩
              intro hcon
              exact ((List.Nodup.mem_erase_iff (h.avail_nodup.erase _)).1 hcon).1 rfl
            · exact h.used_nodup
            · dsimp only
              rw [List.length_cons, List.length_erase_of_mem hla_mem_er,
                List.length_erase_of_mem haa_mem, h.avail_len]
            · exact h.used_len
            · -- avail_bytes
              have hone := @listSum_erase s.arena _ _ haa_mem
              have hsz1 : sizeAtD s.arena (blockAddr s.arena (i + 1)) = ab.size := by
                rw [sizeAtD, hBat1]
              rw [hsz1] at hone
              have htwo := @listSum_erase s.arena _ _ hla_mem_er
              have hsz2 : sizeAtD s.arena la = lb.size := by
                rw [sizeAtD, hBat]
              rw [hsz2] at htwo
              have hcongr : listSum (s.arena.take i ++
                  { size := lb.size + ab.size + EL_BLOCK_OVERHEAD
                    fsize := lb.size + ab.size + EL_BLOCK_OVERHEAD
                    state := BlockState.available } :: s.arena.drop (i + 2))
                  ((s.avail.blocks.erase (blockAddr s.arena (i + 1))).erase la)
                  = listSum s.arena
                    ((s.avail.blocks.erase (blockAddr s.arena (i + 1))).erase la) := by
                apply listSum_congr
                intro x hx
                obtain ⟨hx1, hx2, _⟩ := hmem_dbl x hx
                rw [sizeAtD, sizeAtD, char, if_neg hx1, if_neg hx2]
              have hhead : sizeAtD (s.arena.take i ++
                  { size := lb.size + ab.size + EL_BLOCK_OVERHEAD
                    fsize := lb.size + ab.size + EL_BLOCK_OVERHEAD
                    state := BlockState.available } :: s.arena.drop (i + 2)) la
                  = lb.size + ab.size + EL_BLOCK_OVERHEAD := by
                rw [sizeAtD, char, if_pos rfl]
              dsimp only
              rw [listSum_cons, hhead, hcongr, h.avail_bytes, hone, htwo]
              omega
            · -- used_bytes
              have hcongr : listSum (s.arena.take i ++
                  { size := lb.size + ab.size + EL_BLOCK_OVERHEAD
                    fsize := lb.size + ab.size + EL_BLOCK_OVERHEAD
                    state := BlockState.available } :: s.arena.drop (i + 2))
                  s.used.blocks = listSum s.arena s.used.blocks := by
                apply listSum_congr
                intro x hx
                have hx1 : x ≠ la := by
                  intro hcon
                  subst hcon
                  exact hla_nused hx
                have hx2 : x ≠ blockAddr s.arena (i + 1) := by
                  intro hcon
                  subst hcon
                  exact haa_nused hx
                rw [sizeAtD, sizeAtD, char, if_neg hx1, if_neg hx2]
              dsimp only
              rw [hcongr, h.used_bytes]
          · rw [el_merge_noop_above_not_avail hidx hget h.cover hnext hab] at hm
            cases hm
            exact h
        · have htop : i + 1 = s.arena.length := by omega
          rw [el_merge_noop_top hidx hget h.cover htop] at hm
          cases hm
          exact h
      · rw [el_merge_noop_not_avail hidx hget hlb] at hm
        cases hm
        exact h

/-! ### Coalescing helpers -/

lemma head?_drop_get? (arena : List Block) (j : Nat) :
    (arena.drop j).head? = arena.get? j := by
  cases hg : arena.get? j with
  | some b => rw [drop_eq_cons_of_get? hg]; rfl
  | none =>
    have hlen : arena.length ≤ j := by
      by_contra hcon
      rw [List.get?_eq_get (by omega)] at hg
      cases hg
    rw [List.drop_eq_nil_of_le hlen]
    rfl

lemma take_succ_of_get? {arena : List Block} {k : Nat} {b : Block}
    (h : arena.get? k = some b) :
    arena.take (k + 1) = arena.take k ++ [b] := by
  have h' : arena[k]? = some b := by
    rw [← List.get?_eq_getElem?]
    exact h
  rw [List.take_succ, h']
  rfl

lemma getLast?_take_succ {arena : List Block} {k : Nat} {b : Block}
    (h : arena.get? k = some b) :
    (arena.take (k + 1)).getLast? = some b := by
  rw [take_succ_of_get? h, List.getLast?_concat]

/-- Adjacent blocks in a coalesced arena are never both AVAILABLE. -/
lemma coal_pair {arena : List Block} {j : Nat} {x y : Block}
    (hco : Coalesced arena)
    (hx : arena.get? j = some x) (hy : arena.get? (j + 1) = some y) :
    ¬(x.state = BlockState.available ∧ y.state = BlockState.available) := by
  have hlen : j + 1 < arena.length := by
    by_contra hcon
    rw [List.get?_eq_none.2 (by omega)] at hy
    cases hy
  have hc := List.chain'_iff_get.1 hco j (by omega)
  rw [List.get?_eq_get (by omega : j < arena.length)] at hx
  rw [List.get?_eq_get hlen] at hy
  cases hx
  cases hy
  exact hc

/-- Replacing a contiguous middle segment of a coalesced arena by a single
block whose two new neighbours are not AVAILABLE keeps it coalesced. -/
lemma coal_replace {arena : List Block} (lo hi : Nat) (B : Block)
    (hcoal : Coalesced arena)
    (hlast : ∀ x ∈ (arena.take lo).getLast?, x.state ≠ BlockState.available)
    (hhead : ∀ y ∈ (arena.drop hi).head?, y.state ≠ BlockState.available) :
    Coalesced (arena.take lo ++ B :: arena.drop hi) := by
  refine List.chain'_append.2 ⟨hcoal.take lo, ?_, ?_⟩
  · refine List.chain'_cons'.2 ⟨?_, hcoal.drop hi⟩
    intro y hy
    intro hcon
    exact hhead y hy hcon.2
  · intro x hx y hy
    simp only [List.head?_cons, Option.mem_some_iff] at hy
    subst hy
    intro hcon
    exact hlast x hx hcon.1

/-- The block physically below an AVAILABLE block of a coalesced arena is
not AVAILABLE. -/
lemma flank_last {arena : List Block} {j : Nat} {c : Block}
    (hco : Coalesced arena) (hj : arena.get? j = some c)
    (hcav : c.state = BlockState.available) :
    ∀ x ∈ (arena.take j).getLast?, x.state ≠ BlockState.available := by
  intro x hx
  cases j with
  | zero => simp at hx
  | succ j' =>
    obtain ⟨pb, hpb⟩ : ∃ pb, arena.get? j' = some pb := by
      have hlen : j' + 1 < arena.length := by
        by_contra hcon
        rw [List.get?_eq_none.2 (by omega)] at hj
        cases hj
      rw [List.get?_eq_get (by omega : j' < arena.length)]
      exact ⟨_, rfl⟩
    rw [getLast?_take_succ hpb, Option.mem_some_iff] at hx
    subst hx
    intro hxav
    exact coal_pair hco hpb hj ⟨hxav, hcav⟩

/-- The block physically above an AVAILABLE block of a coalesced arena is
not AVAILABLE. -/
lemma flank_head {arena : List Block} {j : Nat} {c : Block}
    (hco : Coalesced arena) (hj : arena.get? j = some c)
    (hcav : c.state = BlockState.available) :
    ∀ y ∈ (arena.drop (j + 1)).head?, y.state ≠ BlockState.available := by
  intro y hy
  rw [head?_drop_get? arena (j + 1)] at hy
  cases hnext : arena.get? (j + 1) with
  | none => rw [hnext] at hy; cases hy
  | some nb =>
    rw [hnext, Option.mem_some_iff] at hy
    subst hy
    intro hyav
    exact coal_pair hco hj hnext ⟨hcav, hyav⟩

/-- Unfolding `el_free` past the double-free check: the block moves to the
front of the available list as AVAILABLE, then the two merges run. -/
lemma el_free_unfold {s : ElCtl} {p : Nat} {hb : Block}
    (hBat : blockAt s.arena (p - sizeof_blockhead) = some hb)
    (hnav : ¬ hb.state = BlockState.available) :
    el_free s p =
      (match el_merge_block_with_above
          { heap_bytes := s.heap_bytes
            arena := setStateAt s.arena (p - sizeof_blockhead) BlockState.available
            avail := { blocks := (p - sizeof_blockhead) :: s.avail.blocks
                       length := s.avail.length + 1
                       bytes := s.avail.bytes + (EL_BLOCK_OVERHEAD + hb.size) }
            used := { blocks := s.used.blocks.erase (p - sizeof_blockhead)
                      length := s.used.length - 1
                      bytes := s.used.bytes - (EL_BLOCK_OVERHEAD + hb.size) } }
          (some (p - sizeof_blockhead)) with
      | none => none
      | some s3 =>
        match el_block_below s (p - sizeof_blockhead) with
        | none => some s3
        | some ba => el_merge_block_with_above s3 (some ba)) := by
  rw [el_free]
  simp only [hBat]
  rw [if_neg hnav]
  rfl

/-- Common tail of `el_free` after the first merge: the freed region is now
the single AVAILABLE block `B` spanning `take k ... drop hi`; the merge with
the block below and the final invariant are handled uniformly. -/
lemma free_tail_stage {s s3 s' : ElCtl} {a k hi : Nat} {B : Block}
    (h : Inv s)
    (hcore3 : InvCore s3)
    (hidxA : idxOfAddr s.arena a = some k)
    (harena3 : s3.arena = s.arena.take k ++ B :: s.arena.drop hi)
    (hBav : B.state = BlockState.available)
    (hhead : ∀ y ∈ (s.arena.drop hi).head?, y.state ≠ BlockState.available)
    (htail : (match el_block_below s a with
              | none => some s3
              | some ba => el_merge_block_with_above s3 (some ba)) = some s') :
    Inv s' := by
  have hklen : k < s.arena.length := (idxOfAddr_some hidxA).1
  cases k with
  | zero =>
    rw [el_block_below_bottom hidxA] at htail
    cases htail
    refine ⟨hcore3, ?_⟩
    rw [harena3]
    refine coal_replace 0 hi B h.coal ?_ hhead
    intro x hx
    simp at hx
  | succ k' =>
    obtain ⟨pb, hpb⟩ : ∃ pb, s.arena.get? k' = some pb := by
      rw [List.get?_eq_get (by omega : k' < s.arena.length)]
      exact ⟨_, rfl⟩
    have hpbf : pb.fsize = pb.size := h.foots pb (List.get?_mem hpb)
    rw [el_block_below_shape hidxA hpb hpbf] at htail
    have htail2 : el_merge_block_with_above s3 (some (blockAddr s.arena k'))
        = some s' := htail
    have htk : s.arena.take (k' + 1) = s.arena.take k' ++ [pb] :=
      take_succ_of_get? hpb
    have hre : s3.arena = s.arena.take k' ++ (pb :: B :: s.arena.drop hi) := by
      rw [harena3, htk]
      simp
    have htk'len : (s.arena.take k').length = k' := by
      rw [List.length_take]
      omega
    have hspan' : spanSum (s.arena.take k') = blockAddr s.arena k' :=
      spanSum_take s.arena k'
    have hidx3 : idxOfAddr s3.arena (blockAddr s.arena k') = some k' := by
      rw [hre, ← hspan', idxOfAddr_append_len _ (by simp), htk'len]
    have hget3 : s3.arena.get? k' = some pb := by
      rw [hre]
      have h0 := get?_append_len (s.arena.take k') (pb :: B :: s.arena.drop hi) 0
      rw [htk'len] at h0
      simpa using h0
    have hnext3 : s3.arena.get? (k' + 1) = some B := by
      rw [hre]
      have h0 := get?_append_len (s.arena.take k') (pb :: B :: s.arena.drop hi) 1
      rw [htk'len] at h0
      simpa using h0
    by_cases hpbav : pb.state = BlockState.available
    · -- the block below is AVAILABLE: it absorbs `B`
      have hm2 := el_merge_shape hidx3 hget3 hcore3.cover hpbav hnext3 hBav
      rw [hm2] at htail2
      cases htail2
      have hM2arena : s3.arena.take k' ++
          { size := pb.size + B.size + EL_BLOCK_OVERHEAD
            fsize := pb.size + B.size + EL_BLOCK_OVERHEAD
            state := BlockState.available } :: s3.arena.drop (k' + 2)
          = s.arena.take k' ++
            { size := pb.size + B.size + EL_BLOCK_OVERHEAD
              fsize := pb.size + B.size + EL_BLOCK_OVERHEAD
              state := BlockState.available } :: s.arena.drop hi := by
        have ht : s3.arena.take k' = s.arena.take k' := by
          rw [hre, List.take_append_of_le_length (by omega), List.take_take]
          simp
        have hd : s3.arena.drop (k' + 2) = s.arena.drop hi := by
          have hre2 : s3.arena
              = (s.arena.take k' ++ [pb, B]) ++ s.arena.drop hi := by
            rw [hre]
            simp
          rw [hre2]
          have hlen2 : (s.arena.take k' ++ [pb, B]).length = k' + 2 := by
            simp [htk'len]
          rw [← hlen2]
          have := @List.drop_append _ (s.arena.take k' ++ [pb, B])
            (s.arena.drop hi) 0
          simpa using this
        rw [ht, hd]
      refine ⟨invcore_merge hcore3 hm2, ?_⟩
      dsimp only
      rw [hM2arena]
      exact coal_replace k' hi _ h.coal (flank_last h.coal hpb hpbav) hhead
    · -- the block below is not AVAILABLE: the second merge does nothing
      rw [el_merge_noop_not_avail hidx3 hget3 hpbav] at htail2
      cases htail2
      refine ⟨hcore3, ?_⟩
      rw [harena3]
      refine coal_replace (k' + 1) hi B h.coal ?_ hhead
      intro x hx
      rw [getLast?_take_succ hpb, Option.mem_some_iff] at hx
      subst hx
      exact hpbav

/-- `el_free` preserves the full invariant. -/
lemma inv_free {s s' : ElCtl} {p : Nat} (h : Inv s) (hf : el_free s p = some s') :
    Inv s' := by
  cases hBat : blockAt s.arena (p - sizeof_blockhead) with
  | none =>
    rw [el_free] at hf
    simp only [hBat] at hf
    cases hf
  | some hb =>
    by_cases hav : hb.state = BlockState.available
    · rw [el_free] at hf
      simp only [hBat] at hf
      rw [if_pos hav] at hf
      cases hf
      exact h
    · rw [el_free_unfold hBat hav] at hf
      obtain ⟨k, hidx, hklen, haddr, hget⟩ := blockAt_some_elim hBat
      have hst : hb.state = BlockState.used := by
        have hne := h.states hb (List.get?_mem hget)
        cases hcase : hb.state
        · exact absurd hcase hav
        · rfl
        · exact absurd hcase hne
      have hset : setStateAt s.arena (p - sizeof_blockhead) BlockState.available
          = s.arena.take k ++
            { size := hb.size, fsize := hb.fsize, state := BlockState.available } ::
            s.arena.drop (k + 1) := by
        rw [setStateAt_of_idx hidx hget, List.set_eq_take_append_cons_drop,
          if_pos hklen]
      rw [hset] at hf
      have hcore2 := invcore_free_stage h.toInvCore hidx hget hst
      set S2 : ElCtl :=
        { heap_bytes := s.heap_bytes
          arena := s.arena.take k ++
            { size := hb.size, fsize := hb.fsize, state := BlockState.available } ::
            s.arena.drop (k + 1)
          avail := { blocks := (p - sizeof_blockhead) :: s.avail.blocks
                     length := s.avail.length + 1
                     bytes := s.avail.bytes + (EL_BLOCK_OVERHEAD + hb.size) }
          used := { blocks := s.used.blocks.erase (p - sizeof_blockhead)
                    length := s.used.length - 1
                    bytes := s.used.bytes - (EL_BLOCK_OVERHEAD + hb.size) } }
        with hS2
      have htklen : (s.arena.take k).length = k := by
        rw [List.length_take]
        omega
      have hspank : spanSum (s.arena.take k) = p - sizeof_blockhead := by
        rw [spanSum_take, haddr]
      have hidx2 : idxOfAddr S2.arena (p - sizeof_blockhead) = some k := by
        rw [hS2]
        dsimp only
        rw [← hspank, idxOfAddr_append_len _ (by simp), htklen]
      have hget2 : S2.arena.get? k
          = some { size := hb.size, fsize := hb.fsize
                   state := BlockState.available } := by
        rw [hS2]
        dsimp only
        have h0 := get?_append_len (s.arena.take k)
          ({ size := hb.size, fsize := hb.fsize, state := BlockState.available } ::
            s.arena.drop (k + 1)) 0
        rw [htklen] at h0
        simpa using h0
      have hnext2 : S2.arena.get? (k + 1) = s.arena.get? (k + 1) := by
        rw [hS2]
        dsimp only
        have h0 := get?_append_len (s.arena.take k)
          ({ size := hb.size, fsize := hb.fsize, state := BlockState.available } ::
            s.arena.drop (k + 1)) 1
        rw [htklen] at h0
        rw [h0]
        simp only [List.get?]
        have h1 := List.get?_drop s.arena (k + 1) 0
        simpa using h1
      cases hm1 : el_merge_block_with_above S2 (some (p - sizeof_blockhead)) with
      | none =>
        rw [hm1] at hf
        cases hf
      | some s3 =>
        rw [hm1] at hf
        have hf2 : (match el_block_below s (p - sizeof_blockhead) with
            | none => some s3
            | some ba => el_merge_block_with_above s3 (some ba)) = some s' := hf
        have hcore3 : InvCore s3 := invcore_merge hcore2 hm1
        by_cases hi1 : k + 1 < s.arena.length
        · obtain ⟨nb, hnb⟩ : ∃ nb, s.arena.get? (k + 1) = some nb := by
            rw [List.get?_eq_get hi1]
            exact ⟨_, rfl⟩
          have hnb2 : S2.arena.get? (k + 1) = some nb := by
            rw [hnext2, hnb]
          by_cases hnbav : nb.state = BlockState.available
          · -- the block above is AVAILABLE: the first merge absorbs it
            have hsh := el_merge_shape (s := S2) hidx2 hget2 hcore2.cover rfl
              hnb2 hnbav
            rw [hm1] at hsh
            injection hsh with hsh
            have harena3 : s3.arena
                = s.arena.take k ++
                  { size := hb.size + nb.size + EL_BLOCK_OVERHEAD
                    fsize := hb.size + nb.size + EL_BLOCK_OVERHEAD
                    state := BlockState.available } :: s.arena.drop (k + 2) := by
              rw [hsh]
              dsimp only
              congr 1
              · exact List.take_left' htklen
              · congr 1
                show (s.arena.take k ++
                    { size := hb.size, fsize := hb.fsize
                      state := BlockState.available } :: s.arena.drop (k + 1)).drop (k + 2)
                    = s.arena.drop (k + 2)
                have hre2 : s.arena.take k ++
                    { size := hb.size, fsize := hb.fsize
                      state := BlockState.available } :: s.arena.drop (k + 1)
                    = (s.arena.take k ++
                        ([{ size := hb.size, fsize := hb.fsize
                            state := BlockState.available }] : List Block)) ++
                      s.arena.drop (k + 1) := by
                  simp
                rw [hre2]
                have hlen12 : (s.arena.take k ++
                    ([{ size := hb.size, fsize := hb.fsize
                        state := BlockState.available }] : List Block)).length
                    = k + 1 := by
                  simp [htklen]
                have hdrop := @List.drop_append _
                  (s.arena.take k ++
                    ([{ size := hb.size, fsize := hb.fsize
                        state := BlockState.available }] : List Block))
                  (s.arena.drop (k + 1)) 1
                rw [hlen12, List.drop_drop] at hdrop
                exact hdrop
            exact free_tail_stage h hcore3 hidx harena3 rfl
              (flank_head h.coal hnb hnbav) hf2
          · -- the block above is not AVAILABLE: the first merge does nothing
            have hsh := el_merge_noop_above_not_avail (s := S2) hidx2 hget2
              hcore2.cover hnb2 hnbav
            rw [hm1] at hsh
            injection hsh with hsh
            have harena3 : s3.arena = s.arena.take k ++
                { size := hb.size, fsize := hb.fsize, state := BlockState.available } ::
                s.arena.drop (k + 1) := by
              rw [hsh, hS2]
            refine free_tail_stage h hcore3 hidx harena3 rfl ?_ hf2
            intro y hy
            rw [head?_drop_get? s.arena (k + 1), hnb, Option.mem_some_iff] at hy
            subst hy
            exact hnbav
        · -- top block: no block above, the first merge does nothing
          have htop2 : k + 1 = S2.arena.length := by
            rw [hS2]
            dsimp only
            simp [htklen]
            omega
          have hsh := el_merge_noop_top (s := S2) hidx2 hget2 hcore2.cover htop2
          rw [hm1] at hsh
          injection hsh with hsh
          have harena3 : s3.arena = s.arena.take k ++
              { size := hb.size, fsize := hb.fsize, state := BlockState.available } ::
              s.arena.drop (k + 1) := by
            rw [hsh, hS2]
          refine free_tail_stage h hcore3 hidx harena3 rfl ?_ hf2
          intro y hy
          rw [head?_drop_get? s.arena (k + 1), List.get?_eq_none.2 (by omega)] at hy
          cases hy

/-- Every reachable state satisfies the full invariant. -/
lemma reachable_inv {s : ElCtl} (h : Reachable s) : Inv s := by
  induction h with
  | init hb s hinit => exact inv_init hinit
  | malloc s n s' r _ hm ih => exact inv_malloc ih hm
  | free s p s' _ hf ih => exact inv_free ih hf


/-- Freeing the block just returned by a successful `el_malloc` restores the
available list's counters: the remainder of the split is merged back into the
freed block (one merge with the block above), and by coalescing the block
below is not AVAILABLE, so the second merge is a no-op. -/
lemma el_free_round_trip {s s' : ElCtl} {n fa i p : Nat} {b0 : Block}
    (h : Inv s)
    (hidx : idxOfAddr s.arena fa = some i)
    (hget : s.arena.get? i = some b0)
    (hfit : n + EL_BLOCK_OVERHEAD ≤ b0.size)
    (hb0s : b0.state = BlockState.available)
    (hmem : fa ∈ s.avail.blocks)
    (hp : p - sizeof_blockhead = fa)
    (hs' : s' = { heap_bytes := s.heap_bytes
                  arena := s.arena.take i ++
                    { size := n, fsize := n, state := BlockState.used } ::
                    { size := b0.size - n - EL_BLOCK_OVERHEAD
                      fsize := b0.size - n - EL_BLOCK_OVERHEAD
                      state := BlockState.available } :: s.arena.drop (i + 1)
                  avail := { blocks := (fa + n + EL_BLOCK_OVERHEAD) :: s.avail.blocks.erase fa
                             length := s.avail.length - 1 + 1
                             bytes := s.avail.bytes - (EL_BLOCK_OVERHEAD + b0.size)
                               + (EL_BLOCK_OVERHEAD + (b0.size - n - EL_BLOCK_OVERHEAD)) }
                  used := { blocks := fa :: s.used.blocks
                            length := s.used.length + 1
                            bytes := s.used.bytes + (EL_BLOCK_OVERHEAD + n) } }) :
    ∃ s'', el_free s' p = some s'' ∧
      s''.avail.length = s.avail.length ∧
      s''.avail.bytes = s.avail.bytes ∧
      s''.avail.blocks.length = s.avail.blocks.length := by
  have hov40 : EL_BLOCK_OVERHEAD = 40 := rfl
  have hlen : i < s.arena.length := (idxOfAddr_some hidx).1
  have haddr : blockAddr s.arena i = fa := (idxOfAddr_some hidx).2
  have htklen : (s.arena.take i).length = i := by
    rw [List.length_take]
    omega
  have hspanpre : spanSum (s.arena.take i) = fa := by
    rw [spanSum_take, haddr]
  have hBatS : blockAt s.arena fa = some b0 := by
    rw [blockAt, hidx, Option.some_bind, hget]
  -- the arena after the malloc
  have hidxE : idxOfAddr (s.arena.take i ++
        { size := n, fsize := n, state := BlockState.used } ::
        { size := b0.size - n - EL_BLOCK_OVERHEAD
          fsize := b0.size - n - EL_BLOCK_OVERHEAD
          state := BlockState.available } :: s.arena.drop (i + 1)) fa = some i := by
    rw [← hspanpre, idxOfAddr_append_len _ (by simp), htklen]
  have hgetE : (s.arena.take i ++
        { size := n, fsize := n, state := BlockState.used } ::
        { size := b0.size - n - EL_BLOCK_OVERHEAD
          fsize := b0.size - n - EL_BLOCK_OVERHEAD
          state := BlockState.available } :: s.arena.drop (i + 1)).get? i
      = some { size := n, fsize := n, state := BlockState.used } := by
    have h0 := get?_append_len (s.arena.take i)
      ({ size := n, fsize := n, state := BlockState.used } ::
        { size := b0.size - n - EL_BLOCK_OVERHEAD
          fsize := b0.size - n - EL_BLOCK_OVERHEAD
          state := BlockState.available } :: s.arena.drop (i + 1)) 0
    rw [htklen] at h0
    simpa using h0
  have hBatE' : blockAt s'.arena (p - sizeof_blockhead)
      = some { size := n, fsize := n, state := BlockState.used } := by
    rw [hp, hs']
    show blockAt (s.arena.take i ++
        { size := n, fsize := n, state := BlockState.used } ::
        { size := b0.size - n - EL_BLOCK_OVERHEAD
          fsize := b0.size - n - EL_BLOCK_OVERHEAD
          state := BlockState.available } :: s.arena.drop (i + 1)) fa
      = some { size := n, fsize := n, state := BlockState.used }
    rw [blockAt, hidxE, Option.some_bind, hgetE]
  have hnav : ¬ BlockState.used = BlockState.available := by
    intro hcon
    cases hcon
  -- the arena after the state flip back to AVAILABLE
  have hsetE : setStateAt (s.arena.take i ++
        { size := n, fsize := n, state := BlockState.used } ::
        { size := b0.size - n - EL_BLOCK_OVERHEAD
          fsize := b0.size - n - EL_BLOCK_OVERHEAD
          state := BlockState.available } :: s.arena.drop (i + 1)) fa
        BlockState.available
      = s.arena.take i ++
        { size := n, fsize := n, state := BlockState.available } ::
        { size := b0.size - n - EL_BLOCK_OVERHEAD
          fsize := b0.size - n - EL_BLOCK_OVERHEAD
          state := BlockState.available } :: s.arena.drop (i + 1) := by
    rw [setStateAt_of_idx hidxE hgetE, set_append_len' htklen]
    rfl
  have hidx2E : idxOfAddr (s.arena.take i ++
        { size := n, fsize := n, state := BlockState.available } ::
        { size := b0.size - n - EL_BLOCK_OVERHEAD
          fsize := b0.size - n - EL_BLOCK_OVERHEAD
          state := BlockState.available } :: s.arena.drop (i + 1)) fa = some i := by
    rw [← hspanpre, idxOfAddr_append_len _ (by simp), htklen]
  have hget2E : (s.arena.take i ++
        { size := n, fsize := n, state := BlockState.available } ::
        { size := b0.size - n - EL_BLOCK_OVERHEAD
          fsize := b0.size - n - EL_BLOCK_OVERHEAD
          state := BlockState.available } :: s.arena.drop (i + 1)).get? i
      = some { size := n, fsize := n, state := BlockState.available } := by
    have h0 := get?_append_len (s.arena.take i)
      ({ size := n, fsize := n, state := BlockState.available } ::
        { size := b0.size - n - EL_BLOCK_OVERHEAD
          fsize := b0.size - n - EL_BLOCK_OVERHEAD
          state := BlockState.available } :: s.arena.drop (i + 1)) 0
    rw [htklen] at h0
    simpa using h0
  have hnext2E : (s.arena.take i ++
        { size := n, fsize := n, state := BlockState.available } ::
        { size := b0.size - n - EL_BLOCK_OVERHEAD
          fsize := b0.size - n - EL_BLOCK_OVERHEAD
          state := BlockState.available } :: s.arena.drop (i + 1)).get? (i + 1)
      = some { size := b0.size - n - EL_BLOCK_OVERHEAD
               fsize := b0.size - n - EL_BLOCK_OVERHEAD
               state := BlockState.available } := by
    have h0 := get?_append_len (s.arena.take i)
      ({ size := n, fsize := n, state := BlockState.available } ::
        { size := b0.size - n - EL_BLOCK_OVERHEAD
          fsize := b0.size - n - EL_BLOCK_OVERHEAD
          state := BlockState.available } :: s.arena.drop (i + 1)) 1
    rw [htklen] at h0
    simpa using h0
  have hcovE : spanSum (s.arena.take i ++
        { size := n, fsize := n, state := BlockState.available } ::
        { size := b0.size - n - EL_BLOCK_OVERHEAD
          fsize := b0.size - n - EL_BLOCK_OVERHEAD
          state := BlockState.available } :: s.arena.drop (i + 1)) = s.heap_bytes := by
    have hd := arena_decomp hget
    have h2 : spanSum s.arena = s.heap_bytes := h.cover
    conv_rhs => rw [← h2, hd]
    simp only [spanSum_append, spanSum_cons]
    have h3 : blockSpan b0 = EL_BLOCK_OVERHEAD + b0.size := rfl
    have h4 : blockSpan { size := n, fsize := n, state := BlockState.available }
        = EL_BLOCK_OVERHEAD + n := rfl
    have h5 : blockSpan { size := b0.size - n - EL_BLOCK_OVERHEAD
                          fsize := b0.size - n - EL_BLOCK_OVERHEAD
                          state := BlockState.available }
        = EL_BLOCK_OVERHEAD + (b0.size - n - EL_BLOCK_OVERHEAD) := rfl
    omega
  have haaE : blockAddr (s.arena.take i ++
        { size := n, fsize := n, state := BlockState.available } ::
        { size := b0.size - n - EL_BLOCK_OVERHEAD
          fsize := b0.size - n - EL_BLOCK_OVERHEAD
          state := BlockState.available } :: s.arena.drop (i + 1)) (i + 1)
      = fa + n + EL_BLOCK_OVERHEAD := by
    have h4 := blockAddr_get?_succ hget2E
    have h5 : blockAddr (s.arena.take i ++
        { size := n, fsize := n, state := BlockState.available } ::
        { size := b0.size - n - EL_BLOCK_OVERHEAD
          fsize := b0.size - n - EL_BLOCK_OVERHEAD
          state := BlockState.available } :: s.arena.drop (i + 1)) i = fa :=
      (idxOfAddr_some hidx2E).2
    rw [h4, h5]
    have h6 : blockSpan { size := n, fsize := n, state := BlockState.available }
        = EL_BLOCK_OVERHEAD + n := rfl
    omega
  have hdropE : (s.arena.take i ++
        { size := n, fsize := n, state := BlockState.available } ::
        { size := b0.size - n - EL_BLOCK_OVERHEAD
          fsize := b0.size - n - EL_BLOCK_OVERHEAD
          state := BlockState.available } :: s.arena.drop (i + 1)).drop (i + 2)
      = s.arena.drop (i + 1) := by
    have hre2 : s.arena.take i ++
        { size := n, fsize := n, state := BlockState.available } ::
        { size := b0.size - n - EL_BLOCK_OVERHEAD
          fsize := b0.size - n - EL_BLOCK_OVERHEAD
          state := BlockState.available } :: s.arena.drop (i + 1)
        = (s.arena.take i ++
            ([{ size := n, fsize := n, state := BlockState.available },
              { size := b0.size - n - EL_BLOCK_OVERHEAD
                fsize := b0.size - n - EL_BLOCK_OVERHEAD
                state := BlockState.available }] : List Block)) ++
          s.arena.drop (i + 1) := by
      simp
    rw [hre2]
    have hlen2 : (s.arena.take i ++
        ([{ size := n, fsize := n, state := BlockState.available },
          { size := b0.size - n - EL_BLOCK_OVERHEAD
            fsize := b0.size - n - EL_BLOCK_OVERHEAD
            state := BlockState.available }] : List Block)).length = i + 2 := by
      simp [htklen]
    rw [← hlen2]
    have hdrop := @List.drop_append _ (s.arena.take i ++
        ([{ size := n, fsize := n, state := BlockState.available },
          { size := b0.size - n - EL_BLOCK_OVERHEAD
            fsize := b0.size - n - EL_BLOCK_OVERHEAD
            state := BlockState.available }] : List Block)) (s.arena.drop (i + 1)) 0
    simpa using hdrop
  have hfane : fa ≠ fa + n + EL_BLOCK_OVERHEAD := by omega
  have herase : ((fa :: (fa + n + EL_BLOCK_OVERHEAD) :: s.avail.blocks.erase fa).erase
        (fa + n + EL_BLOCK_OVERHEAD)) = fa :: s.avail.blocks.erase fa := by
    rw [List.erase_cons_tail (by simpa using hfane), List.erase_cons_head]
  -- the first merge: the freed block absorbs the remainder
  have hm1 : el_merge_block_with_above
      { heap_bytes := s.heap_bytes
        arena := s.arena.take i ++
          { size := n, fsize := n, state := BlockState.available } ::
          { size := b0.size - n - EL_BLOCK_OVERHEAD
            fsize := b0.size - n - EL_BLOCK_OVERHEAD
            state := BlockState.available } :: s.arena.drop (i + 1)
        avail := { blocks := fa :: (fa + n + EL_BLOCK_OVERHEAD) :: s.avail.blocks.erase fa
                   length := s.avail.length - 1 + 1 + 1
                   bytes := s.avail.bytes - (EL_BLOCK_OVERHEAD + b0.size)
                     + (EL_BLOCK_OVERHEAD + (b0.size - n - EL_BLOCK_OVERHEAD))
                     + (EL_BLOCK_OVERHEAD + n) }
        used := { blocks := (fa :: s.used.blocks).erase fa
                  length := s.used.length + 1 - 1
                  bytes := s.used.bytes + (EL_BLOCK_OVERHEAD + n)
                    - (EL_BLOCK_OVERHEAD + n) } } (some fa)
      = some
      { heap_bytes := s.heap_bytes
        arena := s.arena.take i ++
          { size := n + (b0.size - n - EL_BLOCK_OVERHEAD) + EL_BLOCK_OVERHEAD
            fsize := n + (b0.size - n - EL_BLOCK_OVERHEAD) + EL_BLOCK_OVERHEAD
            state := BlockState.available } :: s.arena.drop (i + 1)
        avail := { blocks := fa :: s.avail.blocks.erase fa
                   length := s.avail.length - 1 + 1 + 1 - 1 - 1 + 1
                   bytes := s.avail.bytes - (EL_BLOCK_OVERHEAD + b0.size)
                     + (EL_BLOCK_OVERHEAD + (b0.size - n - EL_BLOCK_OVERHEAD))
                     + (EL_BLOCK_OVERHEAD + n)
                     - (EL_BLOCK_OVERHEAD + (b0.size - n - EL_BLOCK_OVERHEAD))
                     - (EL_BLOCK_OVERHEAD + n)
                     + (EL_BLOCK_OVERHEAD + (n + (b0.size - n - EL_BLOCK_OVERHEAD)
                         + EL_BLOCK_OVERHEAD)) }
        used := { blocks := (fa :: s.used.blocks).erase fa
                  length := s.used.length + 1 - 1
                  bytes := s.used.bytes + (EL_BLOCK_OVERHEAD + n)
                    - (EL_BLOCK_OVERHEAD + n) } } := by
    rw [el_merge_shape hidx2E hget2E hcovE rfl hnext2E rfl]
    dsimp only
    rw [List.take_left' htklen, hdropE, haaE, herase, List.erase_cons_head]
  -- the same merge step, phrased at the state `el_free` reaches
  have hm1' : el_merge_block_with_above
      { heap_bytes := s'.heap_bytes
        arena := setStateAt s'.arena fa BlockState.available
        avail := { blocks := fa :: s'.avail.blocks
                   length := s'.avail.length + 1
                   bytes := s'.avail.bytes + (EL_BLOCK_OVERHEAD + n) }
        used := { blocks := s'.used.blocks.erase fa
                  length := s'.used.length - 1
                  bytes := s'.used.bytes - (EL_BLOCK_OVERHEAD + n) } } (some fa)
      = some
      { heap_bytes := s.heap_bytes
        arena := s.arena.take i ++
          { size := n + (b0.size - n - EL_BLOCK_OVERHEAD) + EL_BLOCK_OVERHEAD
            fsize := n + (b0.size - n - EL_BLOCK_OVERHEAD) + EL_BLOCK_OVERHEAD
            state := BlockState.available } :: s.arena.drop (i + 1)
        avail := { blocks := fa :: s.avail.blocks.erase fa
                   length := s.avail.length - 1 + 1 + 1 - 1 - 1 + 1
                   bytes := s.avail.bytes - (EL_BLOCK_OVERHEAD + b0.size)
                     + (EL_BLOCK_OVERHEAD + (b0.size - n - EL_BLOCK_OVERHEAD))
                     + (EL_BLOCK_OVERHEAD + n)
                     - (EL_BLOCK_OVERHEAD + (b0.size - n - EL_BLOCK_OVERHEAD))
                     - (EL_BLOCK_OVERHEAD + n)
                     + (EL_BLOCK_OVERHEAD + (n + (b0.size - n - EL_BLOCK_OVERHEAD)
                         + EL_BLOCK_OVERHEAD)) }
        used := { blocks := (fa :: s.used.blocks).erase fa
                  length := s.used.length + 1 - 1
                  bytes := s.used.bytes + (EL_BLOCK_OVERHEAD + n)
                    - (EL_BLOCK_OVERHEAD + n) } } := by
    rw [hs']
    dsimp only
    rw [hsetE]
    exact hm1
  refine ⟨{ heap_bytes := s.heap_bytes
            arena := s.arena.take i ++
              { size := n + (b0.size - n - EL_BLOCK_OVERHEAD) + EL_BLOCK_OVERHEAD
                fsize := n + (b0.size - n - EL_BLOCK_OVERHEAD) + EL_BLOCK_OVERHEAD
                state := BlockState.available } :: s.arena.drop (i + 1)
            avail := { blocks := fa :: s.avail.blocks.erase fa
                       length := s.avail.length - 1 + 1 + 1 - 1 - 1 + 1
                       bytes := s.avail.bytes - (EL_BLOCK_OVERHEAD + b0.size)
                         + (EL_BLOCK_OVERHEAD + (b0.size - n - EL_BLOCK_OVERHEAD))
                         + (EL_BLOCK_OVERHEAD + n)
                         - (EL_BLOCK_OVERHEAD + (b0.size - n - EL_BLOCK_OVERHEAD))
                         - (EL_BLOCK_OVERHEAD + n)
                         + (EL_BLOCK_OVERHEAD + (n + (b0.size - n - EL_BLOCK_OVERHEAD)
                             + EL_BLOCK_OVERHEAD)) }
            used := { blocks := (fa :: s.used.blocks).erase fa
                      length := s.used.length + 1 - 1
                      bytes := s.used.bytes + (EL_BLOCK_OVERHEAD + n)
                        - (EL_BLOCK_OVERHEAD + n) } }, ?_, ?_, ?_, ?_⟩
  · -- the free computation
    rw [el_free_unfold hBatE' hnav]
    simp only [hp]
    simp only [hm1']
    cases i with
    | zero =>
      have hb0' : el_block_below s' fa = none := by
        apply el_block_below_bottom
        rw [hs']
        exact hidxE
      simp only [hb0']
    | succ k' =>
      obtain ⟨pb, hpb⟩ : ∃ pb, s.arena.get? k' = some pb := by
        rw [List.get?_eq_get (by omega : k' < s.arena.length)]
        exact ⟨_, rfl⟩
      have hpbf : pb.fsize = pb.size := h.foots pb (List.get?_mem hpb)
      have hpbE : s'.arena.get? k' = some pb := by
        rw [hs']
        show (s.arena.take (k' + 1) ++
            { size := n, fsize := n, state := BlockState.used } ::
            { size := b0.size - n - EL_BLOCK_OVERHEAD
              fsize := b0.size - n - EL_BLOCK_OVERHEAD
              state := BlockState.available } ::
            s.arena.drop (k' + 1 + 1)).get? k' = some pb
        rw [List.get?_append (by rw [htklen]; omega), List.get?_take (by omega)]
        exact hpb
      have hbelowS : el_block_below s' fa = some (blockAddr s'.arena k') :=
        el_block_below_shape (by rw [hs']; exact hidxE) hpbE hpbf
      have htke : s'.arena.take k' = s.arena.take k' := by
        rw [hs']
        show (s.arena.take (k' + 1) ++
            { size := n, fsize := n, state := BlockState.used } ::
            { size := b0.size - n - EL_BLOCK_OVERHEAD
              fsize := b0.size - n - EL_BLOCK_OVERHEAD
              state := BlockState.available } ::
            s.arena.drop (k' + 1 + 1)).take k' = s.arena.take k'
        rw [List.take_append_of_le_length (by rw [htklen]; omega), List.take_take]
        simp
      have haddrk : blockAddr s'.arena k' = blockAddr s.arena k' := by
        rw [← spanSum_take, ← spanSum_take, htke]
      simp only [hbelowS, haddrk]
      have htk2 : s.arena.take (k' + 1) = s.arena.take k' ++ [pb] :=
        take_succ_of_get? hpb
      have htk3len : (s.arena.take k').length = k' := by
        rw [List.length_take]
        omega
      have hspan3 : spanSum (s.arena.take k') = blockAddr s.arena k' :=
        spanSum_take s.arena k'
      have hre3 : s.arena.take (k' + 1) ++
          { size := n + (b0.size - n - EL_BLOCK_OVERHEAD) + EL_BLOCK_OVERHEAD
            fsize := n + (b0.size - n - EL_BLOCK_OVERHEAD) + EL_BLOCK_OVERHEAD
            state := BlockState.available } :: s.arena.drop (k' + 1 + 1)
          = s.arena.take k' ++ pb ::
            { size := n + (b0.size - n - EL_BLOCK_OVERHEAD) + EL_BLOCK_OVERHEAD
              fsize := n + (b0.size - n - EL_BLOCK_OVERHEAD) + EL_BLOCK_OVERHEAD
              state := BlockState.available } :: s.arena.drop (k' + 1 + 1) := by
        rw [htk2]
        simp
      have hidx3 : idxOfAddr (s.arena.take (k' + 1) ++
          { size := n + (b0.size - n - EL_BLOCK_OVERHEAD) + EL_BLOCK_OVERHEAD
            fsize := n + (b0.size - n - EL_BLOCK_OVERHEAD) + EL_BLOCK_OVERHEAD
            state := BlockState.available } :: s.arena.drop (k' + 1 + 1))
          (blockAddr s.arena k') = some k' := by
        rw [hre3, ← hspan3, idxOfAddr_append_len _ (by simp), htk3len]
      have hget3 : (s.arena.take (k' + 1) ++
          { size := n + (b0.size - n - EL_BLOCK_OVERHEAD) + EL_BLOCK_OVERHEAD
            fsize := n + (b0.size - n - EL_BLOCK_OVERHEAD) + EL_BLOCK_OVERHEAD
            state := BlockState.available } :: s.arena.drop (k' + 1 + 1)).get? k'
          = some pb := by
        rw [hre3]
        have h0 := get?_append_len (s.arena.take k')
          (pb :: { size := n + (b0.size - n - EL_BLOCK_OVERHEAD) + EL_BLOCK_OVERHEAD
                   fsize := n + (b0.size - n - EL_BLOCK_OVERHEAD) + EL_BLOCK_OVERHEAD
                   state := BlockState.available } :: s.arena.drop (k' + 1 + 1)) 0
        rw [htk3len] at h0
        simpa using h0
      have hpbnav : ¬ pb.state = BlockState.available := by
        intro hcon
        exact coal_pair h.coal hpb hget ⟨hcon, hb0s⟩
      exact el_merge_noop_not_avail
        (s := { heap_bytes := s.heap_bytes
                arena := s.arena.take (k' + 1) ++
                  { size := n + (b0.size - n - EL_BLOCK_OVERHEAD) + EL_BLOCK_OVERHEAD
                    fsize := n + (b0.size - n - EL_BLOCK_OVERHEAD) + EL_BLOCK_OVERHEAD
                    state := BlockState.available } :: s.arena.drop (k' + 1 + 1)
                avail := { blocks := fa :: s.avail.blocks.erase fa
                           length := s.avail.length - 1 + 1 + 1 - 1 - 1 + 1
                           bytes := s.avail.bytes - (EL_BLOCK_OVERHEAD + b0.size)
                             + (EL_BLOCK_OVERHEAD + (b0.size - n - EL_BLOCK_OVERHEAD))
                             + (EL_BLOCK_OVERHEAD + n)
                             - (EL_BLOCK_OVERHEAD + (b0.size - n - EL_BLOCK_OVERHEAD))
                             - (EL_BLOCK_OVERHEAD + n)
                             + (EL_BLOCK_OVERHEAD + (n + (b0.size - n - EL_BLOCK_OVERHEAD)
                                 + EL_BLOCK_OVERHEAD)) }
                used := { blocks := (fa :: s.used.blocks).erase fa
                          length := s.used.length + 1 - 1
                          bytes := s.used.bytes + (EL_BLOCK_OVERHEAD + n)
                            - (EL_BLOCK_OVERHEAD + n) } })
        hidx3 hget3 hpbnav
  · -- length counter restored
    dsimp only
    have hlc : s.avail.length = s.avail.blocks.length := h.avail_len
    have hpos : 0 < s.avail.blocks.length := List.length_pos_of_mem hmem
    omega
  · -- bytes counter restored
    dsimp only
    have hbeq : s.avail.bytes = listSum s.arena s.avail.blocks := h.avail_bytes
    have hone := @listSum_erase s.arena _ _ hmem
    have hsz : sizeAtD s.arena fa = b0.size := by rw [sizeAtD, hBatS]
    rw [hsz] at hone
    omega
  · -- member count restored
    dsimp only
    simp only [List.length_cons, List.length_erase_of_mem hmem]
    have hpos : 0 < s.avail.blocks.length := List.length_pos_of_mem hmem
    omega


/-! ## The claims -/

/-! ### Reference definitions and concrete states used by the claims -/

/-- Modelled from the spec: the reference linear scan of the available list
from its front, selecting the first member whose payload size is at least
`size + EL_BLOCK_OVERHEAD` (the reserved headroom for a later split). -/
def spec_first_fit (s : ElCtl) (size : Nat) : Option Nat :=
  s.avail.blocks.find? (fun a => decide (size + EL_BLOCK_OVERHEAD ≤ sizeAtD s.arena a))

/-- The state `el_init 4096` produces: one maximal AVAILABLE block of
payload `4096 - 40 = 4056` bytes. -/
def initState4096 : ElCtl :=
  { heap_bytes := 4096
    arena := [{ size := 4056, fsize := 4056, state := BlockState.available }]
    avail := { blocks := [0], length := 1, bytes := 4096 }
    used := { blocks := [], length := 0, bytes := 0 } }

/-- The state after `el_malloc` for 100 bytes on `initState4096`: a USED
block of payload 100 at the bottom and the AVAILABLE remainder above it. -/
def mallocState4096 : ElCtl :=
  { heap_bytes := 4096
    arena := [{ size := 100, fsize := 100, state := BlockState.used },
              { size := 3916, fsize := 3916, state := BlockState.available }]
    avail := { blocks := [140], length := 1, bytes := 3956 }
    used := { blocks := [0], length := 1, bytes := 140 } }

/-- The state after the exact-fit `el_malloc` for 4016 bytes on
`initState4096`: the remainder is an AVAILABLE block of payload zero. -/
def exactState4096 : ElCtl :=
  { heap_bytes := 4096
    arena := [{ size := 4016, fsize := 4016, state := BlockState.used },
              { size := 0, fsize := 0, state := BlockState.available }]
    avail := { blocks := [4056], length := 1, bytes := 40 }
    used := { blocks := [0], length := 1, bytes := 4056 } }

/-- The state `el_init 90` produces: one AVAILABLE block of payload 50. -/
def initState90 : ElCtl :=
  { heap_bytes := 90
    arena := [{ size := 50, fsize := 50, state := BlockState.available }]
    avail := { blocks := [0], length := 1, bytes := 90 }
    used := { blocks := [], length := 0, bytes := 0 } }

/-! ### C1 -/

/-- C1, counterexample to the claim as stated: already in the freshly
initialised 4096-byte heap, `avail.bytes + used.bytes +
EL_BLOCK_OVERHEAD * (avail.length + used.length)` is `4136`, not the arena
byte count `4096`: the `bytes` counters maintained by `el_add_block_front`
and `el_remove_block` already include each member's per-block overhead, so
the spec's formula counts the overhead twice. -/
theorem C1_formula_counterexample :
    el_init 4096 = some initState4096 ∧
    Reachable initState4096 ∧
    ¬ (initState4096.avail.bytes + initState4096.used.bytes
        + EL_BLOCK_OVERHEAD * (initState4096.avail.length + initState4096.used.length)
        = initState4096.heap_bytes) :=
  ⟨by decide, Reachable.init 4096 initState4096 (by decide), by decide⟩

/-- C1, amended: in every reachable state the two `bytes` counters alone
already sum to the whole arena byte count, because each counter includes the
per-block overhead of each of its members. -/
theorem C1_conservation {s : ElCtl} (h : Reachable s) :
    s.avail.bytes + s.used.bytes = s.heap_bytes :=
  invcore_conservation (reachable_inv h).toInvCore

/-- C1, witness: the amended conservation at the freshly initialised
4096-byte heap. -/
theorem C1_conservation_witness :
    initState4096.avail.bytes + initState4096.used.bytes = initState4096.heap_bytes :=
  C1_conservation (Reachable.init 4096 initState4096 (by decide))

/-! ### C2 -/

/-- C2: for every reachable state in which `el_malloc` succeeds, freeing the
returned pointer immediately afterwards restores the available list's block
count (both the `length` counter and the member count) and its `bytes`
counter: the freed block absorbs the split remainder by the merge with the
block above, and coalescing guarantees the block below does not change. -/
theorem C2_round_trip {s s' : ElCtl} {n p : Nat} (h : Reachable s)
    (hm : el_malloc s n = some (s', some p)) :
    ∃ s'', el_free s' p = some s'' ∧
      s''.avail.length = s.avail.length ∧
      s''.avail.bytes = s.avail.bytes ∧
      s''.avail.blocks.length = s.avail.blocks.length := by
  have hInv := reachable_inv h
  cases hfind : el_find_first_avail s n with
  | none =>
    rw [el_malloc, hfind] at hm
    cases hm
  | some fa =>
    have hfind' := hfind
    rw [el_find_first_avail] at hfind'
    obtain ⟨hmem, b0, hb0, hfit⟩ := el_find_loop_some hfind'
    obtain ⟨b1, hb1, hb0s⟩ := (hInv.avail_mem fa).1 hmem
    rw [hb0] at hb1
    cases hb1
    obtain ⟨i, hidx, hlen, haddr, hget⟩ := blockAt_some_elim hb0
    rw [el_malloc_shape hfind hidx hget hfit] at hm
    cases hm
    exact el_free_round_trip hInv hidx hget hfit hb0s hmem (by omega) rfl

/-- C2, witness: allocate 100 bytes from the fresh 4096-byte heap and free
the returned pointer. -/
theorem C2_round_trip_witness :
    ∃ s'', el_free mallocState4096 32 = some s'' ∧
      s''.avail.length = initState4096.avail.length ∧
      s''.avail.bytes = initState4096.avail.bytes ∧
      s''.avail.blocks.length = initState4096.avail.blocks.length :=
  @C2_round_trip initState4096 mallocState4096 100 32
    (Reachable.init 4096 initState4096 (by decide)) (by decide)

/-! ### C3 -/

/-- C3: in every reachable state the first-fit scan agrees with the spec's
reference linear scan from the list front (first member of payload size at
least `n + EL_BLOCK_OVERHEAD`), and it returns none exactly when no member
of the available list has payload size at least `n + EL_BLOCK_OVERHEAD`. -/
theorem C3_first_fit {s : ElCtl} (h : Reachable s) (n : Nat) :
    el_find_first_avail s n = spec_first_fit s n ∧
    (el_find_first_avail s n = none ↔
      ∀ a ∈ s.avail.blocks, sizeAtD s.arena a < n + EL_BLOCK_OVERHEAD) := by
  have hInv := reachable_inv h
  have hval : ∀ a ∈ s.avail.blocks, ∃ b, blockAt s.arena a = some b := by
    intro a ha
    obtain ⟨b, hb, _⟩ := (hInv.avail_mem a).1 ha
    exact ⟨b, hb⟩
  have heq : el_find_first_avail s n = spec_first_fit s n := by
    rw [el_find_first_avail, hInv.avail_len, spec_first_fit]
    exact el_find_loop_eq_find? hval
  refine ⟨heq, ?_⟩
  rw [heq, spec_first_fit, List.find?_eq_none]
  constructor
  · intro hnone a ha
    have h1 := hnone a ha
    simp only [decide_eq_true_eq] at h1
    omega
  · intro hall a ha
    have h1 := hall a ha
    simp only [decide_eq_true_eq]
    omega

/-- C3, witness: the scan and the reference scan agree on the fresh
4096-byte heap for a 100-byte request. -/
theorem C3_first_fit_witness :
    el_find_first_avail initState4096 100 = spec_first_fit initState4096 100 ∧
    (el_find_first_avail initState4096 100 = none ↔
      ∀ a ∈ initState4096.avail.blocks,
        sizeAtD initState4096.arena a < 100 + EL_BLOCK_OVERHEAD) :=
  C3_first_fit (Reachable.init 4096 initState4096 (by decide)) 100

/-! ### C4 -/

/-- C4: splitting a live block of payload size at least
`target + EL_BLOCK_OVERHEAD` shrinks it to `target` (header and footer),
carves a fresh block immediately above holding
`size - target - EL_BLOCK_OVERHEAD` with matching header and footer, and
returns the new upper block's address; a live block smaller than that is
left untouched and the inner result is none. -/
theorem C4_split_behavior {s : ElCtl} {a i target : Nat} {b : Block}
    (hidx : idxOfAddr s.arena a = some i)
    (hget : s.arena.get? i = some b) :
    (target + EL_BLOCK_OVERHEAD ≤ b.size →
      el_split_block s a target = some
        ({ s with arena := s.arena.take i ++
             [{ size := target, fsize := target, state := b.state },
              { size := b.size - target - EL_BLOCK_OVERHEAD
                fsize := b.size - target - EL_BLOCK_OVERHEAD
                state := BlockState.uninit }] ++ s.arena.drop (i + 1) },
         some (a + target + sizeof_blockfoot + sizeof_blockhead))) ∧
    (b.size < target + EL_BLOCK_OVERHEAD →
      el_split_block s a target = some (s, none)) := by
  constructor
  · intro hfit
    rw [el_split_block]
    simp only [hidx, hget]
    rw [if_neg (by omega)]
  · intro hlt
    rw [el_split_block]
    simp only [hidx, hget]
    rw [if_pos hlt]

/-- C4, witness: both split branches instantiated at the fresh 4096-byte
heap's single block and target 100. -/
theorem C4_split_behavior_witness :
    (100 + EL_BLOCK_OVERHEAD ≤ 4056 →
      el_split_block initState4096 0 100 = some
        ({ initState4096 with arena := initState4096.arena.take 0 ++
             [{ size := 100, fsize := 100, state := BlockState.available },
              { size := 4056 - 100 - EL_BLOCK_OVERHEAD
                fsize := 4056 - 100 - EL_BLOCK_OVERHEAD
                state := BlockState.uninit }] ++ initState4096.arena.drop 1 },
         some (0 + 100 + sizeof_blockfoot + sizeof_blockhead))) ∧
    (4056 < 100 + EL_BLOCK_OVERHEAD →
      el_split_block initState4096 0 100 = some (initState4096, none)) :=
  @C4_split_behavior initState4096 0 0 100
    { size := 4056, fsize := 4056, state := BlockState.available }
    (by decide) (by decide)

/-! ### C5 -/

/-- C5, counterexample to the claim as stated: when the lower block is
absent (a NULL pointer), the C code does not "change no state" — it calls
`el_block_above(lower)`, which reads `lower->size`, before its NULL check,
a NULL dereference; the model returns none (no defined result state) rather
than `some` of the unchanged state. -/
theorem C5_null_lower_counterexample :
    el_merge_block_with_above initState4096 none = none ∧
    el_merge_block_with_above initState4096 none ≠ some initState4096 := by
  decide

/-- C5, amended: for a live lower block the guards behave as claimed — not
AVAILABLE, no block above, or block above not AVAILABLE each change
nothing, and otherwise the two blocks leave the available list, the lower
absorbs `size_lower + size_upper + EL_BLOCK_OVERHEAD` in header and footer,
and the merged block returns to the front of the available list; but an
absent (NULL) lower block is dereferenced before the NULL guard, so that
case has no defined result state (none) instead of "changes no state". -/
theorem C5_merge_guards {s : ElCtl} {la i : Nat} {lb : Block}
    (hidx : idxOfAddr s.arena la = some i)
    (hget : s.arena.get? i = some lb)
    (hcover : spanSum s.arena = s.heap_bytes) :
    (el_merge_block_with_above s none = none) ∧
    (lb.state ≠ BlockState.available →
      el_merge_block_with_above s (some la) = some s) ∧
    (i + 1 = s.arena.length →
      el_merge_block_with_above s (some la) = some s) ∧
    (∀ ab, s.arena.get? (i + 1) = some ab → ab.state ≠ BlockState.available →
      el_merge_block_with_above s (some la) = some s) ∧
    (∀ ab, s.arena.get? (i + 1) = some ab → lb.state = BlockState.available →
      ab.state = BlockState.available →
      el_merge_block_with_above s (some la) = some
        { heap_bytes := s.heap_bytes
          arena := s.arena.take i ++
            { size := lb.size + ab.size + EL_BLOCK_OVERHEAD
              fsize := lb.size + ab.size + EL_BLOCK_OVERHEAD
              state := BlockState.available } :: s.arena.drop (i + 2)
          avail := { blocks :=
                       la :: ((s.avail.blocks.erase (blockAddr s.arena (i + 1))).erase la)
                     length := s.avail.length - 1 - 1 + 1
                     bytes := s.avail.bytes - (EL_BLOCK_OVERHEAD + ab.size)
                       - (EL_BLOCK_OVERHEAD + lb.size)
                       + (EL_BLOCK_OVERHEAD + (lb.size + ab.size + EL_BLOCK_OVERHEAD)) }
          used := s.used }) :=
  ⟨rfl,
   fun hst => el_merge_noop_not_avail hidx hget hst,
   fun htop => el_merge_noop_top hidx hget hcover htop,
   fun ab hnext habst => el_merge_noop_above_not_avail hidx hget hcover hnext habst,
   fun ab hnext hlb hab => el_merge_shape hidx hget hcover hlb hnext hab⟩

/-- C5, witness: the guard case analysis instantiated at the fresh
4096-byte heap's single (topmost) block. -/
theorem C5_merge_guards_witness :
    (el_merge_block_with_above initState4096 none = none) ∧
    (BlockState.available ≠ BlockState.available →
      el_merge_block_with_above initState4096 (some 0) = some initState4096) ∧
    (0 + 1 = initState4096.arena.length →
      el_merge_block_with_above initState4096 (some 0) = some initState4096) ∧
    (∀ ab, initState4096.arena.get? (0 + 1) = some ab →
      ab.state ≠ BlockState.available →
      el_merge_block_with_above initState4096 (some 0) = some initState4096) ∧
    (∀ ab, initState4096.arena.get? (0 + 1) = some ab →
      BlockState.available = BlockState.available →
      ab.state = BlockState.available →
      el_merge_block_with_above initState4096 (some 0) = some
        { heap_bytes := initState4096.heap_bytes
          arena := initState4096.arena.take 0 ++
            { size := 4056 + ab.size + EL_BLOCK_OVERHEAD
              fsize := 4056 + ab.size + EL_BLOCK_OVERHEAD
              state := BlockState.available } :: initState4096.arena.drop (0 + 2)
          avail := { blocks :=
                       0 :: ((initState4096.avail.blocks.erase
                         (blockAddr initState4096.arena (0 + 1))).erase 0)
                     length := initState4096.avail.length - 1 - 1 + 1
                     bytes := initState4096.avail.bytes - (EL_BLOCK_OVERHEAD + ab.size)
                       - (EL_BLOCK_OVERHEAD + 4056)
                       + (EL_BLOCK_OVERHEAD + (4056 + ab.size + EL_BLOCK_OVERHEAD)) }
          used := initState4096.used }) :=
  @C5_merge_guards initState4096 0 0
    { size := 4056, fsize := 4056, state := BlockState.available }
    (by decide) (by decide) (by decide)

/-! ### C6 -/

/-- C6: `el_free` on a pointer whose recovered header (one header size
below the pointer) is already AVAILABLE returns the state unchanged — the
double-free guard — so a second free of the same still-AVAILABLE block is a
no-op and every invariant of the state is trivially preserved. -/
theorem C6_double_free_noop {s : ElCtl} {p : Nat} {hb : Block}
    (hBat : blockAt s.arena (p - sizeof_blockhead) = some hb)
    (hav : hb.state = BlockState.available) :
    el_free s p = some s := by
  rw [el_free]
  simp only [hBat]
  rw [if_pos hav]

/-- C6, witness: freeing payload address 32 of the fresh heap, whose block
is AVAILABLE, changes nothing (exactly the second free of a round trip). -/
theorem C6_double_free_noop_witness :
    el_free initState4096 32 = some initState4096 :=
  @C6_double_free_noop initState4096 32
    { size := 4056, fsize := 4056, state := BlockState.available }
    (by decide) (by decide)

/-! ### C7 -/

/-- C7: when no member of the available list has payload size at least
`n + EL_BLOCK_OVERHEAD`, `el_malloc` returns the null result and the whole
allocator state unchanged. -/
theorem C7_oom_unchanged {s : ElCtl} {n : Nat} (h : Reachable s)
    (hnofit : ∀ a ∈ s.avail.blocks, sizeAtD s.arena a < n + EL_BLOCK_OVERHEAD) :
    el_malloc s n = some (s, none) := by
  have hInv := reachable_inv h
  have hval : ∀ a ∈ s.avail.blocks, ∃ b, blockAt s.arena a = some b := by
    intro a ha
    obtain ⟨b, hb, _⟩ := (hInv.avail_mem a).1 ha
    exact ⟨b, hb⟩
  have hfind : el_find_first_avail s n = none := by
    rw [el_find_first_avail, hInv.avail_len, el_find_loop_eq_find? hval,
      List.find?_eq_none]
    intro a ha
    simp only [decide_eq_true_eq]
    have h1 := hnofit a ha
    omega
  rw [el_malloc]
  simp only [hfind]

/-- C7, witness: a 5000-byte request on the fresh 4096-byte heap fails and
leaves the state untouched. -/
theorem C7_oom_unchanged_witness :
    el_malloc initState4096 5000 = some (initState4096, none) :=
  C7_oom_unchanged (Reachable.init 4096 initState4096 (by decide)) (by decide)

/-! ### C8 -/

/-- C8: after any `el_free` that completes on a reachable state, no two
physically adjacent blocks of the arena are both AVAILABLE. -/
theorem C8_free_coalesces {s s' : ElCtl} {p : Nat} (h : Reachable s)
    (hf : el_free s p = some s') : Coalesced s'.arena :=
  (inv_free (reachable_inv h) hf).coal

/-- C8, witness: the arena after allocating 100 bytes and freeing them
again is coalesced. -/
theorem C8_free_coalesces_witness : Coalesced initState4096.arena :=
  @C8_free_coalesces mallocState4096 initState4096 32
    (Reachable.malloc initState4096 100 mallocState4096 (some 32)
      (Reachable.init 4096 initState4096 (by decide)) (by decide))
    (by decide)

/-! ### C9 -/

/-- C9, counterexample to the claim as stated: its premise — a fitting
block is found whose split fails — cannot occur, because the first-fit scan
only accepts blocks of payload size at least `n + EL_BLOCK_OVERHEAD`, which
is exactly the split's success condition.  A block large enough for the
request but too small to split is skipped instead: on a 90-byte heap whose
single AVAILABLE block has payload 50, a 20-byte request finds the block
would fit (50 ≥ 20) yet `el_malloc` returns null and hands out nothing,
rather than marking the whole block USED as the claim describes. -/
theorem C9_whole_block_counterexample :
    el_init 90 = some initState90 ∧
    20 ≤ sizeAtD initState90.arena 0 ∧
    el_malloc initState90 20 = some (initState90, none) := by
  decide

/-- C9, amended: whenever the first-fit scan does return a block, that
block's payload is at least `n + EL_BLOCK_OVERHEAD`, so the subsequent
split succeeds and returns the upper remainder block — the claimed
whole-block fallback path is unreachable (and had the split ever returned
none, `el_malloc` would dereference NULL rather than hand out the whole
block). -/
theorem C9_found_block_always_splits {s : ElCtl} {n fa : Nat}
    (hfind : el_find_first_avail s n = some fa) :
    ∃ i b, idxOfAddr s.arena fa = some i ∧ s.arena.get? i = some b ∧
      n + EL_BLOCK_OVERHEAD ≤ b.size ∧
      el_split_block s fa n = some
        ({ s with arena := s.arena.take i ++
             [{ size := n, fsize := n, state := b.state },
              { size := b.size - n - EL_BLOCK_OVERHEAD
                fsize := b.size - n - EL_BLOCK_OVERHEAD
                state := BlockState.uninit }] ++ s.arena.drop (i + 1) },
         some (fa + n + sizeof_blockfoot + sizeof_blockhead)) := by
  rw [el_find_first_avail] at hfind
  obtain ⟨hmem, b, hb, hfit⟩ := el_find_loop_some hfind
  obtain ⟨i, hidx, hlen, haddr, hget⟩ := blockAt_some_elim hb
  refine ⟨i, b, hidx, hget, hfit, ?_⟩
  rw [el_split_block]
  simp only [hidx, hget]
  rw [if_neg (by omega)]

/-- C9, witness: on the fresh 4096-byte heap the 100-byte search returns
block 0 and its split succeeds. -/
theorem C9_found_block_always_splits_witness :
    ∃ i b, idxOfAddr initState4096.arena 0 = some i ∧
      initState4096.arena.get? i = some b ∧
      100 + EL_BLOCK_OVERHEAD ≤ b.size ∧
      el_split_block initState4096 0 100 = some
        ({ initState4096 with arena := initState4096.arena.take i ++
             [{ size := 100, fsize := 100, state := b.state },
              { size := b.size - 100 - EL_BLOCK_OVERHEAD
                fsize := b.size - 100 - EL_BLOCK_OVERHEAD
                state := BlockState.uninit }] ++ initState4096.arena.drop (i + 1) },
         some (0 + 100 + sizeof_blockfoot + sizeof_blockhead)) :=
  C9_found_block_always_splits (by decide)


/-- C10: every successful `el_malloc` splits the found block, so the USED
block handed out has payload size exactly `n`; the remainder is pushed onto
the front of the available list as an AVAILABLE block of payload
`size - n - EL_BLOCK_OVERHEAD` — in particular payload zero when the found
block fits exactly (`size = n + EL_BLOCK_OVERHEAD`). -/
theorem C10_split_always_succeeds {s s' : ElCtl} {n p : Nat} (h : Reachable s)
    (hm : el_malloc s n = some (s', some p)) :
    blockAt s'.arena (p - sizeof_blockhead)
      = some { size := n, fsize := n, state := BlockState.used } ∧
    ∃ fa b, el_find_first_avail s n = some fa ∧ blockAt s.arena fa = some b ∧
      n + EL_BLOCK_OVERHEAD ≤ b.size ∧
      s'.avail.blocks.head? = some (fa + n + EL_BLOCK_OVERHEAD) ∧
      blockAt s'.arena (fa + n + EL_BLOCK_OVERHEAD)
        = some { size := b.size - n - EL_BLOCK_OVERHEAD
                 fsize := b.size - n - EL_BLOCK_OVERHEAD
                 state := BlockState.available } ∧
      (b.size = n + EL_BLOCK_OVERHEAD →
        blockAt s'.arena (fa + n + EL_BLOCK_OVERHEAD)
          = some { size := 0, fsize := 0, state := BlockState.available }) := by
  have hInv := reachable_inv h
  cases hfind : el_find_first_avail s n with
  | none =>
    rw [el_malloc, hfind] at hm
    cases hm
  | some fa =>
    have hfind' := hfind
    rw [el_find_first_avail] at hfind'
    obtain ⟨hmem, b0, hb0, hfit⟩ := el_find_loop_some hfind'
    obtain ⟨i, hidx, hlen, haddr, hget⟩ := blockAt_some_elim hb0
    rw [el_malloc_shape hfind hidx hget hfit] at hm
    cases hm
    have hov40 : EL_BLOCK_OVERHEAD = 40 := rfl
    have htklen : (s.arena.take i).length = i := by
      rw [List.length_take]
      omega
    have hspanpre : spanSum (s.arena.take i) = fa := by
      rw [spanSum_take, haddr]
    have hidxE : idxOfAddr (s.arena.take i ++
          { size := n, fsize := n, state := BlockState.used } ::
          { size := b0.size - n - EL_BLOCK_OVERHEAD
            fsize := b0.size - n - EL_BLOCK_OVERHEAD
            state := BlockState.available } :: s.arena.drop (i + 1)) fa = some i := by
      rw [← hspanpre, idxOfAddr_append_len _ (by simp), htklen]
    have hgetE : (s.arena.take i ++
          { size := n, fsize := n, state := BlockState.used } ::
          { size := b0.size - n - EL_BLOCK_OVERHEAD
            fsize := b0.size - n - EL_BLOCK_OVERHEAD
            state := BlockState.available } :: s.arena.drop (i + 1)).get? i
        = some { size := n, fsize := n, state := BlockState.used } := by
      have h0 := get?_append_len (s.arena.take i)
        ({ size := n, fsize := n, state := BlockState.used } ::
          { size := b0.size - n - EL_BLOCK_OVERHEAD
            fsize := b0.size - n - EL_BLOCK_OVERHEAD
            state := BlockState.available } :: s.arena.drop (i + 1)) 0
      rw [htklen] at h0
      simpa using h0
    have hnextE : (s.arena.take i ++
          { size := n, fsize := n, state := BlockState.used } ::
          { size := b0.size - n - EL_BLOCK_OVERHEAD
            fsize := b0.size - n - EL_BLOCK_OVERHEAD
            state := BlockState.available } :: s.arena.drop (i + 1)).get? (i + 1)
        = some { size := b0.size - n - EL_BLOCK_OVERHEAD
                 fsize := b0.size - n - EL_BLOCK_OVERHEAD
                 state := BlockState.available } := by
      have h0 := get?_append_len (s.arena.take i)
        ({ size := n, fsize := n, state := BlockState.used } ::
          { size := b0.size - n - EL_BLOCK_OVERHEAD
            fsize := b0.size - n - EL_BLOCK_OVERHEAD
            state := BlockState.available } :: s.arena.drop (i + 1)) 1
      rw [htklen] at h0
      simpa using h0
    have haaE : blockAddr (s.arena.take i ++
          { size := n, fsize := n, state := BlockState.used } ::
          { size := b0.size - n - EL_BLOCK_OVERHEAD
            fsize := b0.size - n - EL_BLOCK_OVERHEAD
            state := BlockState.available } :: s.arena.drop (i + 1)) (i + 1)
        = fa + n + EL_BLOCK_OVERHEAD := by
      have h4 := blockAddr_get?_succ hgetE
      have h5 : blockAddr (s.arena.take i ++
          { size := n, fsize := n, state := BlockState.used } ::
          { size := b0.size - n - EL_BLOCK_OVERHEAD
            fsize := b0.size - n - EL_BLOCK_OVERHEAD
            state := BlockState.available } :: s.arena.drop (i + 1)) i = fa :=
        (idxOfAddr_some hidxE).2
      rw [h4, h5]
      have h6 : blockSpan { size := n, fsize := n, state := BlockState.used }
          = EL_BLOCK_OVERHEAD + n := rfl
      omega
    have hlenE : i + 1 < (s.arena.take i ++
          { size := n, fsize := n, state := BlockState.used } ::
          { size := b0.size - n - EL_BLOCK_OVERHEAD
            fsize := b0.size - n - EL_BLOCK_OVERHEAD
            state := BlockState.available } :: s.arena.drop (i + 1)).length := by
      rw [List.length_append, htklen]
      simp
    have hidxSA : idxOfAddr (s.arena.take i ++
          { size := n, fsize := n, state := BlockState.used } ::
          { size := b0.size - n - EL_BLOCK_OVERHEAD
            fsize := b0.size - n - EL_BLOCK_OVERHEAD
            state := BlockState.available } :: s.arena.drop (i + 1))
          (fa + n + EL_BLOCK_OVERHEAD) = some (i + 1) := by
      rw [← haaE]
      exact idxOfAddr_blockAddr hlenE
    have hp32 : fa + sizeof_blockhead - sizeof_blockhead = fa := by omega
    refine ⟨?_, fa, b0, rfl, hb0, hfit, rfl, ?_, ?_⟩
    · rw [hp32]
      show blockAt (s.arena.take i ++
          { size := n, fsize := n, state := BlockState.used } ::
          { size := b0.size - n - EL_BLOCK_OVERHEAD
            fsize := b0.size - n - EL_BLOCK_OVERHEAD
            state := BlockState.available } :: s.arena.drop (i + 1)) fa
        = some { size := n, fsize := n, state := BlockState.used }
      rw [blockAt, hidxE, Option.some_bind, hgetE]
    · show blockAt (s.arena.take i ++
          { size := n, fsize := n, state := BlockState.used } ::
          { size := b0.size - n - EL_BLOCK_OVERHEAD
            fsize := b0.size - n - EL_BLOCK_OVERHEAD
            state := BlockState.available } :: s.arena.drop (i + 1))
          (fa + n + EL_BLOCK_OVERHEAD)
        = some { size := b0.size - n - EL_BLOCK_OVERHEAD
                 fsize := b0.size - n - EL_BLOCK_OVERHEAD
                 state := BlockState.available }
      rw [blockAt, hidxSA, Option.some_bind, hnextE]
    · intro hexact
      have h0 : b0.size - n - EL_BLOCK_OVERHEAD = 0 := by omega
      show blockAt (s.arena.take i ++
          { size := n, fsize := n, state := BlockState.used } ::
          { size := b0.size - n - EL_BLOCK_OVERHEAD
            fsize := b0.size - n - EL_BLOCK_OVERHEAD
            state := BlockState.available } :: s.arena.drop (i + 1))
          (fa + n + EL_BLOCK_OVERHEAD)
        = some { size := 0, fsize := 0, state := BlockState.available }
      rw [blockAt, hidxSA, Option.some_bind, hnextE, h0]

/-- C10, witness: the exact-fit request of 4016 bytes on the fresh
4096-byte heap leaves a zero-payload AVAILABLE remainder at the front of
the available list. -/
theorem C10_split_always_succeeds_witness :
    blockAt exactState4096.arena (32 - sizeof_blockhead)
      = some { size := 4016, fsize := 4016, state := BlockState.used } ∧
    ∃ fa b, el_find_first_avail initState4096 4016 = some fa ∧
      blockAt initState4096.arena fa = some b ∧
      4016 + EL_BLOCK_OVERHEAD ≤ b.size ∧
      exactState4096.avail.blocks.head? = some (fa + 4016 + EL_BLOCK_OVERHEAD) ∧
      blockAt exactState4096.arena (fa + 4016 + EL_BLOCK_OVERHEAD)
        = some { size := b.size - 4016 - EL_BLOCK_OVERHEAD
                 fsize := b.size - 4016 - EL_BLOCK_OVERHEAD
                 state := BlockState.available } ∧
      (b.size = 4016 + EL_BLOCK_OVERHEAD →
        blockAt exactState4096.arena (fa + 4016 + EL_BLOCK_OVERHEAD)
          = some { size := 0, fsize := 0, state := BlockState.available }) :=
  @C10_split_always_succeeds initState4096 exactState4096 4016 32
    (Reachable.init 4096 initState4096 (by decide)) (by decide)

end ElMalloc
